import Mathlib

/-!
# Verification of the locplace/scanner work pipeline

A shallow embedding of the core of the `locplace/scanner` repository:
the durable store (`domain_files`, `scan_batches`, `scanner_sessions`,
`loc_records` tables and the operations of `internal/coordinator/db`),
the feeder's batch production loop, the reaper tick, the coordinator's
result-submission handler, the RFC 1876 LOC text parser of
`internal/scanner/loc.go`, and the DNS LOC lookup of
`internal/scanner/dns.go`.

Modelling conventions:
* SQL timestamps and durations are integers (an abstract clock); `NOW()`
  is passed in as a `now` parameter.
* Go `float64` values handled by the LOC parser are modelled as exact
  rationals (`Rat`); the numeric strings involved carry only digits,
  an optional sign and one decimal point, so the ideal values are exact.
* Fallible operations return `Option`; a Go panic is `none`.
* Each database operation is a pure function from the store state to a
  new store state (plus its result); a transaction that errors returns
  `none` and leaves the state unchanged.
-/

namespace Scanner

/-- Row of the `domain_files` table (struct `db.DomainFile`). -/
structure DomainFile where
  id : Int
  filename : String
  url : String
  sizeBytes : Int
  processedLines : Int
  batchesCreated : Int
  batchesCompleted : Int
  feedingComplete : Bool
  status : String
  startedAt : Option Int
  completedAt : Option Int
deriving DecidableEq, Repr

/-- Row of the `scan_batches` table (struct `db.ScanBatch`, the
session-aware revision). -/
structure ScanBatch where
  id : Int
  fileId : Int
  lineStart : Int
  lineEnd : Int
  domains : String
  status : String
  assignedAt : Option Int
  scannerId : Option String
  sessionId : Option String
deriving DecidableEq, Repr

/-- Row of the `scanner_sessions` table. -/
structure ScannerSession where
  id : String
  clientId : String
  lastHeartbeat : Int
deriving DecidableEq, Repr

/-- Row of the `loc_records` table (geographic fields as rationals). -/
structure LOCRow where
  rootDomain : String
  fqdn : String
  rawRecord : String
  latitude : Rat
  longitude : Rat
  altitudeM : Rat
  sizeM : Rat
  horizPrecM : Rat
  vertPrecM : Rat
  firstSeenAt : Int
  lastSeenAt : Int
deriving DecidableEq, Repr

/-- A LOC record as carried in API requests (struct `api.LOCRecord`). -/
structure ApiLOCRecord where
  fqdn : String
  rawRecord : String
  latitude : Rat
  longitude : Rat
  altitudeM : Rat
  sizeM : Rat
  horizPrecM : Rat
  vertPrecM : Rat
deriving DecidableEq, Repr

/-- The durable store: the four tables the pipeline operates on. -/
structure Store where
  files : List DomainFile
  batches : List ScanBatch
  sessions : List ScannerSession
  locRecords : List LOCRow
deriving DecidableEq, Repr

/-! ## Store operations (`internal/coordinator/db`) -/

/-- Fresh id for an inserted batch row (`BIGSERIAL` allocation). -/
def nextBatchId (s : Store) : Int :=
  (s.batches.map (·.id)).foldr max 0 + 1

/-- Fresh id for an inserted file row (`SERIAL` allocation). -/
def nextFileId (s : Store) : Int :=
  (s.files.map (·.id)).foldr max 0 + 1

/-- `db.CreateBatchAndUpdateProgress`: in one transaction, insert a
batch row (status defaults to `pending`, the session columns to NULL)
and update the owning file's `processed_lines` to `lineEnd` and
`batches_created` by one. The `file_id` column carries a foreign key
to `domain_files` (migration 000005): inserting for a non-existent
file errors and the transaction rolls back, leaving the store
unchanged. -/
def CreateBatchAndUpdateProgress (s : Store) (fileId lineStart lineEnd : Int)
    (domains : String) : Store :=
  if s.files.any (fun f => f.id == fileId) then
    { s with
      batches := s.batches ++
        [{ id := nextBatchId s, fileId := fileId, lineStart := lineStart,
           lineEnd := lineEnd, domains := domains, status := "pending",
           assignedAt := none, scannerId := none, sessionId := none }],
      files := s.files.map fun f =>
        if f.id == fileId then
          { f with processedLines := lineEnd,
                   batchesCreated := f.batchesCreated + 1 }
        else f }
  else s

/-- The lowest-id `pending` batch
(`SELECT ... WHERE status = 'pending' ORDER BY id LIMIT 1`). -/
def lowestPendingBatch (s : Store) : Option ScanBatch :=
  (s.batches.filter fun b => b.status == "pending").foldl
    (fun acc b =>
      match acc with
      | none => some b
      | some a => if b.id < a.id then some b else some a)
    none

/-- `db.ClaimBatch` (session-aware revision): select the lowest-id
pending batch, set it `in_flight` with `assigned_at = NOW()`,
`scanner_id` and `session_id`. The Go function returns the selected
struct with only `Status` overwritten (the lock/assignment columns in
the returned value are the ones read by the SELECT, i.e. still null). -/
def ClaimBatch (s : Store) (scannerId sessionId : String) (now : Int) :
    Option ScanBatch × Store :=
  match lowestPendingBatch s with
  | none => (none, s)
  | some b =>
    (some { b with status := "in_flight" },
     { s with
       batches := s.batches.map fun x =>
         if x.id == b.id then
           { x with status := "in_flight", assignedAt := some now,
                    scannerId := some scannerId, sessionId := some sessionId }
         else x })

/-- Increment `batches_completed` of the file with the given id
(`UPDATE domain_files SET batches_completed = batches_completed + 1
WHERE id = $1`). -/
def bumpCompleted (fileId : Int) (f : DomainFile) : DomainFile :=
  if f.id == fileId then
    { f with batchesCompleted := f.batchesCompleted + 1 }
  else f

/-- `db.CompleteBatch` (the revision returning `assigned_at`): in one
transaction, read `(file_id, assigned_at)` by batch id, delete the
batch row, increment the owning file's `batches_completed`. When no
row has the requested id the SELECT errors (`no rows in result set`),
the transaction rolls back and the call fails (`none`). -/
def CompleteBatch (s : Store) (batchId : Int) :
    Option ((Int × Option Int) × Store) :=
  match s.batches.find? (fun b => b.id == batchId) with
  | none => none
  | some b =>
    some ((b.fileId, b.assignedAt),
      { s with
        batches := s.batches.filter fun x => !(x.id == batchId),
        files := s.files.map (bumpCompleted b.fileId) })

/-- The column reset applied by both reclaim statements:
`SET status = 'pending', assigned_at = NULL, scanner_id = NULL,
session_id = NULL`. -/
def resetBatch (b : ScanBatch) : ScanBatch :=
  { b with status := "pending", assignedAt := none, scannerId := none,
           sessionId := none }

/-- `db.ResetStaleBatches` (the session-aware revision): reset
`in_flight` batches with NULL `session_id` whose `assigned_at` is older
than the timeout. A NULL `assigned_at` never satisfies the SQL
comparison. -/
def ResetStaleBatches (s : Store) (now timeout : Int) : Store :=
  { s with
    batches := s.batches.map fun b =>
      if b.status == "in_flight" && b.sessionId.isNone &&
          (match b.assignedAt with
           | some t => decide (t < now - timeout)
           | none => false) then
        resetBatch b
      else b }

/-- Whether a `session_id` column value joins to a session row whose
`last_heartbeat` is older than the heartbeat timeout. -/
def joinsDeadSession (sessions : List ScannerSession) (now hbTimeout : Int) :
    Option String → Bool
  | none => false
  | some sid =>
    sessions.any fun t => t.id == sid && decide (t.lastHeartbeat < now - hbTimeout)

/-- `db.ResetBatchesFromDeadSessions`: reset `in_flight` batches whose
session row's `last_heartbeat` is older than the heartbeat timeout. -/
def ResetBatchesFromDeadSessions (s : Store) (now hbTimeout : Int) : Store :=
  { s with
    batches := s.batches.map fun b =>
      if b.status == "in_flight" &&
          joinsDeadSession s.sessions now hbTimeout b.sessionId then
        resetBatch b
      else b }

/-- `reaper.runOnce`: one reaper tick executes the dead-session reclaim
and then the wall-time reclaim for legacy sessionless batches. -/
def runOnce (s : Store) (now batchTimeout hbTimeout : Int) : Store :=
  ResetStaleBatches (ResetBatchesFromDeadSessions s now hbTimeout) now batchTimeout

/-- Eligibility predicate of `db.GetNextFileToProcess`:
`status IN ('processing','pending') AND NOT (feeding_complete = true
AND batches_completed < batches_created)`. -/
def eligibleFile (f : DomainFile) : Bool :=
  (f.status == "processing" || f.status == "pending") &&
  !(f.feedingComplete && decide (f.batchesCompleted < f.batchesCreated))

/-- Sort rank of `CASE status WHEN 'processing' THEN 0 ELSE 1 END`. -/
def statusRank (f : DomainFile) : Nat :=
  if f.status == "processing" then 0 else 1

/-- Lexicographic (code-point-wise) comparison of character lists,
modelling the store's `ORDER BY filename`. -/
def charsLt : List Char → List Char → Bool
  | [], [] => false
  | [], _ :: _ => true
  | _ :: _, [] => false
  | a :: s, b :: t =>
    if a.toNat < b.toNat then true
    else if b.toNat < a.toNat then false
    else charsLt s t

/-- Lexicographic string order for `ORDER BY filename`. -/
def strLt (a b : String) : Bool := charsLt a.toList b.toList

/-- The `ORDER BY` of `GetNextFileToProcess`: status rank (processing
before pending), then `filename`. -/
def fileBefore (f g : DomainFile) : Prop :=
  statusRank f < statusRank g ∨
    (statusRank f = statusRank g ∧ strLt f.filename g.filename = true)

instance (f g : DomainFile) : Decidable (fileBefore f g) := by
  unfold fileBefore; infer_instance

/-- One step of the `LIMIT 1` selection: keep the better row under the
`ORDER BY` (earlier row wins ties). -/
def pickBest (acc : Option DomainFile) (f : DomainFile) : Option DomainFile :=
  match acc with
  | none => some f
  | some g => if fileBefore f g then some f else some g

/-- The row selected by the `SELECT ... ORDER BY ... LIMIT 1` of
`GetNextFileToProcess`. -/
def pickNextFile (files : List DomainFile) : Option DomainFile :=
  (files.filter eligibleFile).foldl pickBest none

/-- `db.GetNextFileToProcess`: select the best eligible file; if it was
picked while `pending`, promote the row to `processing` with
`started_at = NOW()`. The Go function returns the scanned struct with
only `Status` overwritten. -/
def GetNextFileToProcess (s : Store) (now : Int) :
    Option DomainFile × Store :=
  match pickNextFile s.files with
  | none => (none, s)
  | some f =>
    if f.status == "pending" then
      (some { f with status := "processing" },
       { s with
         files := s.files.map fun g =>
           if g.id == f.id then
             { g with status := "processing", startedAt := some now }
           else g })
    else (some f, s)

/-- `db.MarkFeedingComplete`. -/
def MarkFeedingComplete (s : Store) (fileId : Int) : Store :=
  { s with
    files := s.files.map fun f =>
      if f.id == fileId then { f with feedingComplete := true } else f }

/-- The row predicate of the opportunistic close
(`db.CheckAndMarkFileComplete`). -/
def closablePred (fileId : Int) (f : DomainFile) : Bool :=
  f.id == fileId && f.feedingComplete &&
  f.batchesCreated == f.batchesCompleted && f.status == "processing"

/-- `db.CheckAndMarkFileComplete`: guarded update to
`status = 'complete', completed_at = NOW()`; returns whether a row was
affected. -/
def CheckAndMarkFileComplete (s : Store) (fileId now : Int) : Bool × Store :=
  (s.files.any (closablePred fileId),
   { s with
     files := s.files.map fun f =>
       if closablePred fileId f then
         { f with status := "complete", completedAt := some now }
       else f })

/-- `db.UpsertDomainFile`: insert a file row with default counters, or
on filename conflict update only `url` and `size_bytes`. -/
def UpsertDomainFile (s : Store) (filename url : String) (sizeBytes : Int) :
    Store :=
  if s.files.any (fun f => f.filename == filename) then
    { s with
      files := s.files.map fun f =>
        if f.filename == filename then
          { f with url := url, sizeBytes := sizeBytes }
        else f }
  else
    { s with
      files := s.files ++
        [{ id := nextFileId s, filename := filename, url := url,
           sizeBytes := sizeBytes, processedLines := 0, batchesCreated := 0,
           batchesCompleted := 0, feedingComplete := false,
           status := "pending", startedAt := none, completedAt := none }] }

/-- `db.UpsertSession`: insert a session row, or on id conflict update
only `last_heartbeat`. -/
def UpsertSession (s : Store) (clientId sessionId : String) (now : Int) :
    Store :=
  if s.sessions.any (fun t => t.id == sessionId) then
    { s with
      sessions := s.sessions.map fun t =>
        if t.id == sessionId then { t with lastHeartbeat := now } else t }
  else
    { s with
      sessions := s.sessions ++
        [{ id := sessionId, clientId := clientId, lastHeartbeat := now }] }

/-- The `valid_coordinates` CHECK constraint of migration 000009. -/
def validCoordinates (rec : ApiLOCRecord) : Bool :=
  decide (-90 ≤ rec.latitude) && decide (rec.latitude ≤ 90) &&
  decide (-180 ≤ rec.longitude) && decide (rec.longitude ≤ 180)

/-- `db.UpsertLOCRecord`: insert keyed on `fqdn`, or on conflict update
the geographic columns and `last_seen_at` (not `root_domain`, not
`first_seen_at`). Returns whether the statement succeeded; a record
violating the coordinate CHECK constraint is rejected and the store is
unchanged. -/
def UpsertLOCRecord (s : Store) (rootDomain : String) (rec : ApiLOCRecord)
    (now : Int) : Bool × Store :=
  if !validCoordinates rec then
    (false, s)
  else if s.locRecords.any (fun r => r.fqdn == rec.fqdn) then
    (true,
     { s with
       locRecords := s.locRecords.map fun r =>
         if r.fqdn == rec.fqdn then
           { r with rawRecord := rec.rawRecord, latitude := rec.latitude,
                    longitude := rec.longitude, altitudeM := rec.altitudeM,
                    sizeM := rec.sizeM, horizPrecM := rec.horizPrecM,
                    vertPrecM := rec.vertPrecM, lastSeenAt := now }
         else r })
  else
    (true,
     { s with
       locRecords := s.locRecords ++
         [{ rootDomain := rootDomain, fqdn := rec.fqdn,
            rawRecord := rec.rawRecord, latitude := rec.latitude,
            longitude := rec.longitude, altitudeM := rec.altitudeM,
            sizeM := rec.sizeM, horizPrecM := rec.horizPrecM,
            vertPrecM := rec.vertPrecM, firstSeenAt := now,
            lastSeenAt := now }] })

/-! ## The result-submission handler (`handlers.SubmitResults`,
batch-based revision) -/

/-- Request body of `POST /api/scanner/results` (`api.SubmitBatchRequest`). -/
structure SubmitBatchRequest where
  batchId : Int
  domainsChecked : Int
  locRecords : List ApiLOCRecord
deriving DecidableEq, Repr

/-- Outcome of a handler call. -/
inductive SubmitResponse where
  | ok (accepted : Nat)
  | badRequest (msg : String)
  | serverError (msg : String)
deriving DecidableEq, Repr

/-- One iteration of the LOC-record loop of `handlers.SubmitResults`:
compute the root domain (`rootOf` models
`publicsuffix.EffectiveTLDPlusOne`; on its failure the FQDN itself is
used), upsert, and count the record when the statement succeeded. -/
def submitStep (rootOf : String → Option String) (now : Int)
    (acc : Nat × Store) (loc : ApiLOCRecord) : Nat × Store :=
  let rootDomain := (rootOf loc.fqdn).getD loc.fqdn
  let r := UpsertLOCRecord acc.2 rootDomain loc now
  (if r.1 then acc.1 + 1 else acc.1, r.2)

/-- `handlers.SubmitResults`: reject a zero batch id; upsert each
submitted LOC record under its root domain; then call `CompleteBatch`
— its failure is reported as an HTTP 500 `failed to complete batch`
error, with the already-executed upserts kept (they were separate
committed statements); on success try the opportunistic file close and
report the accepted count. -/
def SubmitResults (s : Store) (rootOf : String → Option String)
    (req : SubmitBatchRequest) (now : Int) : SubmitResponse × Store :=
  if req.batchId == 0 then
    (.badRequest "batch_id is required", s)
  else
    let upserted := req.locRecords.foldl (submitStep rootOf now) (0, s)
    match CompleteBatch upserted.2 req.batchId with
    | none => (.serverError "failed to complete batch", upserted.2)
    | some ((fileId, _), s2) =>
      (.ok upserted.1, (CheckAndMarkFileComplete s2 fileId now).2)

/-- Whether a handler outcome is an HTTP 200 success. -/
def isOk : SubmitResponse → Bool
  | .ok _ => true
  | .badRequest _ => false
  | .serverError _ => false

/-! ## The feeder's batch production loop (`feeder.processFile`) -/

/-- The whitespace set trimmed by `strings.TrimSpace` (the ASCII part
of Unicode White_Space; the feeder's lines, split on newlines, contain
no other whitespace of interest). -/
def isSpaceGo (c : Char) : Bool :=
  c == ' ' || c == '\t' || c == '\n' || c == '\x0b' || c == '\x0c' || c == '\r'

/-- `strings.TrimSpace` on a character list. -/
def trimSpaceL (l : List Char) : List Char :=
  ((l.dropWhile isSpaceGo).reverse.dropWhile isSpaceGo).reverse

/-- `strings.TrimSpace`. -/
def trimSpace (s : String) : String :=
  String.mk (trimSpaceL s.toList)

/-- One batch inserted by `feeder.insertBatch`. -/
structure FeederBatch where
  lineStart : Int
  lineEnd : Int
  domains : List String
deriving DecidableEq, Repr

/-- `strings.HasPrefix(line, "#")`: the line's first character is
`#`. -/
def startsWithHash (l : String) : Bool :=
  match l.toList with
  | '#' :: _ => true
  | _ => false

/-- A line the feeder skips after trimming: empty or a `#` comment. -/
def skippedLine (l : String) : Bool :=
  trimSpace l == "" || startsWithHash (trimSpace l)

/-- The line loop of `feeder.processFile`, including the final partial
flush. Arguments beyond the configuration: remaining lines, the current
`lineNum`, the in-memory `batch` buffer and the current `batchStart`
(set to the current line number whenever a line is appended to an
empty buffer). Lines numbered `≤ skipToLine` are skipped for resume;
blank and `#` lines are skipped; a batch is inserted whenever the
buffer reaches `batchSize` (with `line_start = batchStart`,
`line_end = lineNum`), and the partial buffer is flushed at EOF. -/
def feedGo (batchSize : Nat) (skipToLine : Int) :
    List String → Int → List String → Int → List FeederBatch
  | [], lineNum, buf, batchStart =>
    if buf.isEmpty then [] else [⟨batchStart, lineNum, buf⟩]
  | l :: rest, lineNum, buf, batchStart =>
    if lineNum + 1 ≤ skipToLine then
      feedGo batchSize skipToLine rest (lineNum + 1) buf batchStart
    else if skippedLine l then
      feedGo batchSize skipToLine rest (lineNum + 1) buf batchStart
    else if batchSize ≤ buf.length + 1 then
      ⟨if buf.isEmpty then lineNum + 1 else batchStart, lineNum + 1,
        buf ++ [trimSpace l]⟩ ::
        feedGo batchSize skipToLine rest (lineNum + 1) []
          (if buf.isEmpty then lineNum + 1 else batchStart)
    else
      feedGo batchSize skipToLine rest (lineNum + 1) (buf ++ [trimSpace l])
        (if buf.isEmpty then lineNum + 1 else batchStart)

/-- `feeder.processFile` restricted to its batch production: the
sequence of batches inserted when feeding `lines` with resume cursor
`processed_lines = skipToLine`. -/
def processFile (batchSize : Nat) (skipToLine : Int) (lines : List String) :
    List FeederBatch :=
  feedGo batchSize skipToLine lines 0 [] 0

/-- 1-based number of the first line after the resume cursor whose
trimmed content is non-empty and not a `#` comment (the first line the
restarted feeder puts into a batch). -/
def firstFedLine (skipToLine : Int) : List String → Int → Option Int
  | [], _ => none
  | l :: rest, lineNum =>
    if lineNum + 1 ≤ skipToLine then firstFedLine skipToLine rest (lineNum + 1)
    else if skippedLine l then firstFedLine skipToLine rest (lineNum + 1)
    else some (lineNum + 1)

/-! ## DNS LOC lookup (`internal/scanner/dns.go`) -/

/-- Result of a LOC lookup (struct `scanner.LOCResult`; the Go `error`
is an optional message). -/
structure LOCResult where
  fqdn : String
  hasLOC : Bool
  rawRecord : String
  error : Option String
deriving DecidableEq, Repr

/-- An answer-section resource record of a DNS response: either a LOC
record (with its formatted text) or any other record type. -/
inductive DNSAnswer where
  | loc (raw : String)
  | other
deriving DecidableEq, Repr

/-- What one nameserver exchange yields after `sendUDPQuery` and
`Unpack`: a transport/format error, or a response with an `Rcode` and
an answer section. -/
inductive UDPReply where
  | err (msg : String)
  | resp (rcode : Nat) (answers : List DNSAnswer)
deriving DecidableEq, Repr

/-- The DNS question built by `msg.SetQuestion(fqdn, dns.TypeLOC)`:
`dns.TypeLOC = 29`, class `IN = 1`. -/
structure Question where
  name : String
  qtype : Nat
  qcls : Nat
deriving DecidableEq, Repr

/-- The FQDN normalization at the top of `LookupLOC`:
`if fqdn[len(fqdn)-1] != '.' { fqdn = fqdn + "." }`. Indexing the last
byte of the empty string panics (`none`). (The last byte of a valid
UTF-8 string equals `'.'` exactly when its last character does.) -/
def ensureTrailingDot (fqdn : String) : Option String :=
  match fqdn.toList.getLast? with
  | none => none
  | some c => if c != '.' then some (fqdn ++ ".") else some fqdn

/-- First LOC record in an answer section (the
`for _, rr := range responseMsg.Answer` loop). -/
def findLOCAnswer : List DNSAnswer → Option String
  | [] => none
  | .loc raw :: _ => some raw
  | .other :: rest => findLOCAnswer rest

/-- `dns.RcodeSuccess` and `dns.RcodeNameError`. -/
def rcodeSuccess : Nat := 0
def rcodeNameError : Nat := 3

/-- The nameserver loop of `LookupLOC`: try each nameserver in order;
a transport/unpack error or a non-success non-NXDOMAIN `Rcode` records
`lastErr` and moves on; NXDOMAIN returns not-found immediately; a
successful response returns found on the first LOC answer, otherwise
not-found. When all nameservers failed the last error is reported. -/
def lookupFrom (fqdn0 : String) (q : Question)
    (oracle : String → Question → UDPReply) :
    List String → Option String → LOCResult
  | [], lastErr => { fqdn := fqdn0, hasLOC := false, rawRecord := "", error := lastErr }
  | ns :: rest, lastErr =>
    match oracle ns q with
    | .err e => lookupFrom fqdn0 q oracle rest (some e)
    | .resp rcode answers =>
      if rcode != rcodeSuccess then
        if rcode == rcodeNameError then
          { fqdn := fqdn0, hasLOC := false, rawRecord := "", error := lastErr }
        else
          lookupFrom fqdn0 q oracle rest (some "DNS error")
      else
        match findLOCAnswer answers with
        | some raw => { fqdn := fqdn0, hasLOC := true, rawRecord := raw, error := none }
        | none => { fqdn := fqdn0, hasLOC := false, rawRecord := "", error := none }

/-- `scanner.LookupLOC` of `internal/scanner/dns.go` (the raw-UDP
revision): the network is abstracted as an oracle giving each
nameserver's reply to the packed query. Returns the result together
with the question that was issued; `none` models the panic on the
empty FQDN. (`msg.Pack` on a well-formed question is modelled as
total.) -/
def LookupLOC (nameservers : List String)
    (oracle : String → Question → UDPReply) (fqdn : String) :
    Option (LOCResult × Question) :=
  match ensureTrailingDot fqdn with
  | none => none
  | some name =>
    let q : Question := { name := name, qtype := 29, qcls := 1 }
    some (lookupFrom fqdn q oracle nameservers none, q)

/-- Modelled from the spec: the claim's description of the lookup's
name handling, "strips a single trailing `.` " from the FQDN before
issuing the query (this is what the zdns-based revision of `LookupLOC`
in the unnamed scanner source does). Stated for comparison with
`ensureTrailingDot`, the name handling of `internal/scanner/dns.go`. -/
def stripSingleTrailingDot (fqdn : String) : String :=
  match fqdn.toList.getLast? with
  | some c => if c = '.' then String.mk fqdn.toList.dropLast else fqdn
  | none => fqdn

/-! ## LOC text parser (`internal/scanner/loc.go`)

`locRegex`, `coordRegex` and `meterRegex` are regular expressions whose
repetition operators all act on single-character classes. Such a
pattern is a sequence of atoms `class^quantifier`, and Go's
leftmost-first submatch semantics (the match a backtracking search
finds: greedy quantifiers, earliest start position) is implemented
exactly by `matchItems` / `findMatch` below: at each atom the candidate
consumption counts are tried longest-first, and the first count under
which the rest of the pattern matches wins. -/

/-- `\d` of RE2. -/
def isDigitCh (c : Char) : Bool := 48 ≤ c.toNat && c.toNat ≤ 57

/-- `[\d.]` of the LOC regexes. -/
def isDigitDot (c : Char) : Bool := isDigitCh c || c == '.'

/-- `\s` of RE2: `[\t\n\f\r ]`. -/
def isSpaceRe (c : Char) : Bool :=
  c == ' ' || c == '\t' || c == '\n' || c == '\x0c' || c == '\r'

/-- `[NS]`. -/
def isNS (c : Char) : Bool := c == 'N' || c == 'S'

/-- `[EW]`. -/
def isEW (c : Char) : Bool := c == 'E' || c == 'W'

/-- The literal `-`. -/
def isDashCh (c : Char) : Bool := c == '-'

/-- The literal `m`. -/
def isMCh (c : Char) : Bool := c == 'm'

/-- Regex quantifiers appearing in the LOC patterns. -/
inductive Quant where
  | one
  | opt
  | plus
  | star
deriving DecidableEq, Repr

/-- One pattern atom: a character class with a quantifier, optionally
inside a capture group (`cap` is the group number; a group spanning
several atoms repeats its number, its text being the concatenation). -/
structure Atom where
  cls : Char → Bool
  q : Quant
  cap : Option Nat

/-- Length of the longest prefix of `s` inside the class. -/
def greedyRun (cls : Char → Bool) (s : List Char) : Nat :=
  (s.takeWhile cls).length

/-- `[m, m-1, ..., 1]`. -/
def descPlus : Nat → List Nat
  | 0 => []
  | n + 1 => (n + 1) :: descPlus n

/-- `[m, m-1, ..., 0]`. -/
def descStar : Nat → List Nat
  | 0 => [0]
  | n + 1 => (n + 1) :: descStar n

/-- The consumption counts a backtracking engine tries for one
quantified class atom, in preference order (greedy: longest first),
given that the longest possible run has length `m`. -/
def countOptions (q : Quant) (m : Nat) : List Nat :=
  match q with
  | .one => if 1 ≤ m then [1] else []
  | .opt => if 1 ≤ m then [1, 0] else [0]
  | .plus => descPlus m
  | .star => descStar m

/-- Anchored backtracking match of an atom sequence against the whole
input (`^...$`), returning the capture pieces in atom order. -/
def matchItems : List Atom → List Char → Option (List (Nat × List Char))
  | [], [] => some []
  | [], _ :: _ => none
  | a :: rest, s =>
    (countOptions a.q (greedyRun a.cls s)).findSome? fun n =>
      (matchItems rest (s.drop n)).map fun caps =>
        match a.cap with
        | some i => (i, s.take n) :: caps
        | none => caps

/-- Backtracking match of an atom sequence against a prefix of the
input; returns the capture pieces and the unconsumed suffix. -/
def matchItemsPre : List Atom → List Char → Option (List (Nat × List Char) × List Char)
  | [], s => some ([], s)
  | a :: rest, s =>
    (countOptions a.q (greedyRun a.cls s)).findSome? fun n =>
      (matchItemsPre rest (s.drop n)).map fun pr =>
        (match a.cap with
         | some i => (i, s.take n) :: pr.1
         | none => pr.1,
         pr.2)

/-- Unanchored leftmost match (`FindStringSubmatch` of an unanchored
pattern): try each start position left to right. Returns the capture
pieces, the length of the whole match (`len(matches[0])`) and the
suffix after the match. -/
def findMatch (atoms : List Atom) : List Char → Option (List (Nat × List Char) × Nat × List Char)
  | [] =>
    match matchItemsPre atoms [] with
    | some (caps, rest) => some (caps, 0, rest)
    | none => none
  | c :: t =>
    match matchItemsPre atoms (c :: t) with
    | some (caps, rest) => some (caps, (c :: t).length - rest.length, rest)
    | none => findMatch atoms t

/-- `FindAllStringSubmatch(s, -1)`: repeated leftmost matches, each
continuing after the previous match (advancing one character past an
empty match). Fuelled for totality; fuel `s.length + 1` suffices. -/
def findAllGo (atoms : List Atom) : Nat → List Char → List (List (Nat × List Char))
  | 0, _ => []
  | fuel + 1, s =>
    match findMatch atoms s with
    | none => []
    | some (caps, _, rest) =>
      if rest.length < s.length then caps :: findAllGo atoms fuel rest
      else caps :: findAllGo atoms fuel (rest.drop 1)

/-- Text of capture group `i`: concatenation of its pieces. -/
def getCap (caps : List (Nat × List Char)) (i : Nat) : List Char :=
  ((caps.filter fun p => p.1 == i).map (·.2)).flatten

/-- `locRegex` as an atom sequence:
`^(\d+)\s+(\d+)\s+([\d.]+)\s+([NS])\s+(\d+)\s+(\d+)\s+([\d.]+)\s+([EW])\s+`
`(-?[\d.]+)m\s*([\d.]+)m?\s*([\d.]+)m?\s*([\d.]+)m?$`. -/
def locAtoms : List Atom :=
  [⟨isDigitCh, .plus, some 1⟩, ⟨isSpaceRe, .plus, none⟩,
   ⟨isDigitCh, .plus, some 2⟩, ⟨isSpaceRe, .plus, none⟩,
   ⟨isDigitDot, .plus, some 3⟩, ⟨isSpaceRe, .plus, none⟩,
   ⟨isNS, .one, some 4⟩, ⟨isSpaceRe, .plus, none⟩,
   ⟨isDigitCh, .plus, some 5⟩, ⟨isSpaceRe, .plus, none⟩,
   ⟨isDigitCh, .plus, some 6⟩, ⟨isSpaceRe, .plus, none⟩,
   ⟨isDigitDot, .plus, some 7⟩, ⟨isSpaceRe, .plus, none⟩,
   ⟨isEW, .one, some 8⟩, ⟨isSpaceRe, .plus, none⟩,
   ⟨isDashCh, .opt, some 9⟩, ⟨isDigitDot, .plus, some 9⟩,
   ⟨isMCh, .one, none⟩, ⟨isSpaceRe, .star, none⟩,
   ⟨isDigitDot, .plus, some 10⟩, ⟨isMCh, .opt, none⟩, ⟨isSpaceRe, .star, none⟩,
   ⟨isDigitDot, .plus, some 11⟩, ⟨isMCh, .opt, none⟩, ⟨isSpaceRe, .star, none⟩,
   ⟨isDigitDot, .plus, some 12⟩, ⟨isMCh, .opt, none⟩]

/-- `coordRegex` of `ParseLOCRecordLenient`:
`(\d+)\s+(\d+)\s+([\d.]+)\s+([NS])\s+(\d+)\s+(\d+)\s+([\d.]+)\s+([EW])`
(unanchored). -/
def coordAtoms : List Atom :=
  [⟨isDigitCh, .plus, some 1⟩, ⟨isSpaceRe, .plus, none⟩,
   ⟨isDigitCh, .plus, some 2⟩, ⟨isSpaceRe, .plus, none⟩,
   ⟨isDigitDot, .plus, some 3⟩, ⟨isSpaceRe, .plus, none⟩,
   ⟨isNS, .one, some 4⟩, ⟨isSpaceRe, .plus, none⟩,
   ⟨isDigitCh, .plus, some 5⟩, ⟨isSpaceRe, .plus, none⟩,
   ⟨isDigitCh, .plus, some 6⟩, ⟨isSpaceRe, .plus, none⟩,
   ⟨isDigitDot, .plus, some 7⟩, ⟨isSpaceRe, .plus, none⟩,
   ⟨isEW, .one, some 8⟩]

/-- `meterRegex` of `ParseLOCRecordLenient`: `(-?[\d.]+)m` (unanchored). -/
def meterAtoms : List Atom :=
  [⟨isDashCh, .opt, some 1⟩, ⟨isDigitDot, .plus, some 1⟩, ⟨isMCh, .one, none⟩]

/-- Numeric value of a digit string (most significant first). -/
def digitsVal (l : List Char) : Nat :=
  l.foldl (fun a c => 10 * a + (c.toNat - 48)) 0

/-- Magnitude part of `strconv.ParseFloat` on the fragment the LOC
regexes can produce (digits with at most one decimal point): `none`
models a parse error. -/
def parseMag (t : List Char) : Option Rat :=
  if (t.drop (t.takeWhile isDigitCh).length).isEmpty then
    if (t.takeWhile isDigitCh).isEmpty then none
    else some (digitsVal (t.takeWhile isDigitCh) : Rat)
  else if (t.drop (t.takeWhile isDigitCh).length).head? == some '.' then
    if ((t.drop (t.takeWhile isDigitCh).length).drop 1).all isDigitCh &&
        !((t.takeWhile isDigitCh).isEmpty &&
          ((t.drop (t.takeWhile isDigitCh).length).drop 1).isEmpty) then
      some ((digitsVal (t.takeWhile isDigitCh) : Rat) +
        (digitsVal ((t.drop (t.takeWhile isDigitCh).length).drop 1) : Rat) /
          (10 : Rat) ^ ((t.drop (t.takeWhile isDigitCh).length).drop 1).length)
    else none
  else none

/-- `strconv.ParseFloat` on the fragment the LOC regexes can produce
(optional sign, digits, at most one decimal point), as used by the
parser: the error is discarded, so a malformed capture yields `0`. -/
def parseFloatQ (l : List Char) : Rat :=
  match (if l.head? == some '-' || l.head? == some '+' then
          parseMag (l.drop 1) else parseMag l) with
  | none => 0
  | some v => if l.head? == some '-' then -v else v

/-- `scanner.ParseLOCRecord`: trim, match `locRegex`, fail with an
error (`none`) on no match; otherwise convert
`decimal = deg + min/60 + sec/3600`, negated for `S` (latitude) or `W`
(longitude), and read the four meter quantities. -/
def ParseLOCRecord (fqdn raw : String) : Option ApiLOCRecord :=
  let l := trimSpaceL raw.toList
  match matchItems locAtoms l with
  | none => none
  | some caps =>
    let f := fun i => parseFloatQ (getCap caps i)
    let latAbs := f 1 + f 2 / 60 + f 3 / 3600
    let latitude := if String.mk (getCap caps 4) == "S" then -latAbs else latAbs
    let lonAbs := f 5 + f 6 / 60 + f 7 / 3600
    let longitude := if String.mk (getCap caps 8) == "W" then -lonAbs else lonAbs
    some { fqdn := fqdn, rawRecord := String.mk l, latitude := latitude,
           longitude := longitude, altitudeM := f 9, sizeM := f 10,
           horizPrecM := f 11, vertPrecM := f 12 }

/-- `scanner.ParseLOCRecordLenient`: strict first; otherwise find the
DMS pair with `coordRegex`, then scan `raw[len(matches[0]):]` (the Go
code slices from index `len(matches[0])`, not from the match's end)
for `m`-suffixed numbers with `meterRegex`, defaulting missing fields
to altitude 0, size 1, horizontal precision 10000, vertical
precision 10. -/
def ParseLOCRecordLenient (fqdn raw : String) : Option ApiLOCRecord :=
  match ParseLOCRecord fqdn raw with
  | some rec => some rec
  | none =>
    let l := trimSpaceL raw.toList
    match findMatch coordAtoms l with
    | none => none
    | some (caps, len0, _) =>
      let f := fun i => parseFloatQ (getCap caps i)
      let latAbs := f 1 + f 2 / 60 + f 3 / 3600
      let latitude := if String.mk (getCap caps 4) == "S" then -latAbs else latAbs
      let lonAbs := f 5 + f 6 / 60 + f 7 / 3600
      let longitude := if String.mk (getCap caps 8) == "W" then -lonAbs else lonAbs
      let rest := l.drop len0
      let meters := (findAllGo meterAtoms (rest.length + 1) rest).map
        fun c => getCap c 1
      let altitudeM := match meters.get? 0 with
        | some v => parseFloatQ v
        | none => 0
      let sizeM := match meters.get? 1 with
        | some v => parseFloatQ v
        | none => 1
      let horizPrecM := match meters.get? 2 with
        | some v => parseFloatQ v
        | none => 10000
      let vertPrecM := match meters.get? 3 with
        | some v => parseFloatQ v
        | none => 10
      some { fqdn := fqdn, rawRecord := String.mk l, latitude := latitude,
             longitude := longitude, altitudeM := altitudeM, sizeM := sizeM,
             horizPrecM := horizPrecM, vertPrecM := vertPrecM }

/-! ## Counter invariant and reachable store states -/

/-- Number of remaining `scan_batches` rows owned by a file. -/
def batchCountFor (s : Store) (fileId : Int) : Nat :=
  s.batches.countP fun b => b.fileId == fileId

/-- Invariant (a) of §3 together with the batch-count bound:
`batches_completed ≤ batches_created` and
`batches_created − batches_completed ≥ count(batches with file_id)`. -/
def CounterInv (s : Store) : Prop :=
  ∀ f ∈ s.files, f.batchesCompleted ≤ f.batchesCreated ∧
    f.batchesCompleted + (batchCountFor s f.id : Int) ≤ f.batchesCreated

/-- The `file_id` foreign key of `scan_batches`: every batch row
references an existing file row. -/
def BatchFK (s : Store) : Prop :=
  ∀ b ∈ s.batches, ∃ f ∈ s.files, f.id = b.fileId

/-- Store states reachable through the operations of the work pipeline
(file discovery, feeding, claiming, completing, reaping, session and
LOC-record upserts), from the empty store. -/
inductive Reachable : Store → Prop where
  | empty : Reachable { files := [], batches := [], sessions := [], locRecords := [] }
  | upsertFile (s : Store) (fn url : String) (sz : Int) :
      Reachable s → Reachable (UpsertDomainFile s fn url sz)
  | upsertSession (s : Store) (cid sid : String) (now : Int) :
      Reachable s → Reachable (UpsertSession s cid sid now)
  | upsertLoc (s : Store) (rd : String) (rec : ApiLOCRecord) (now : Int) :
      Reachable s → Reachable (UpsertLOCRecord s rd rec now).2
  | nextFile (s : Store) (now : Int) :
      Reachable s → Reachable (GetNextFileToProcess s now).2
  | createBatch (s : Store) (fid ls le : Int) (d : String) :
      Reachable s → Reachable (CreateBatchAndUpdateProgress s fid ls le d)
  | claimBatch (s : Store) (cid sid : String) (now : Int) :
      Reachable s → Reachable (ClaimBatch s cid sid now).2
  | completeBatch (s : Store) (bid : Int) (r : Int × Option Int) (s' : Store) :
      Reachable s → CompleteBatch s bid = some (r, s') → Reachable s'
  | resetStale (s : Store) (now t : Int) :
      Reachable s → Reachable (ResetStaleBatches s now t)
  | resetDead (s : Store) (now ht : Int) :
      Reachable s → Reachable (ResetBatchesFromDeadSessions s now ht)
  | markFeeding (s : Store) (fid : Int) :
      Reachable s → Reachable (MarkFeedingComplete s fid)
  | closeFile (s : Store) (fid now : Int) :
      Reachable s → Reachable (CheckAndMarkFileComplete s fid now).2

/-! ## Canonical strict LOC texts

Inputs for the parser laws: decimal renderings of the numeric
components, assembled in the exact shape of the strict grammar. The
nesting of the appends mirrors the atom sequence of `locAtoms`. -/

/-- The character of a decimal digit. -/
def digitChar (d : Nat) : Char := Char.ofNat (48 + d)

/-- Decimal digits of `n`, most significant first (`fuel` bounds the
recursion; `natChars` supplies enough). -/
def natCharsAux : Nat → Nat → List Char
  | 0, _ => []
  | fuel + 1, n =>
    if n = 0 then [] else natCharsAux fuel (n / 10) ++ [digitChar (n % 10)]

/-- Decimal rendering of a natural number, as `strconv` would print it. -/
def natChars (n : Nat) : List Char :=
  if n = 0 then ['0'] else natCharsAux n n

/-- Three-digit zero-padded rendering (used for the `.sss` fraction). -/
def pad3 (n : Nat) : List Char :=
  [digitChar (n / 100), digitChar (n / 10 % 10), digitChar (n % 10)]

/-- The seconds field `S.sss`: whole seconds and milliseconds. -/
def secL (w frac : Nat) : List Char :=
  natChars w ++ ('.' :: pad3 frac)

/-- A canonical strict LOC text
`D M S.sss {N|S} D M S.sss {E|W} [-]Am S[m] HP[m] VP[m]`: DMS
components for latitude and longitude, an integral altitude with
optional minus sign and mandatory `m`, and integral size / horizontal
precision / vertical precision whose `m` suffixes are controlled by
`sm`, `hm`, `vm`. -/
def mkRawL (latDeg latMin latSecW latSecM : Nat) (latH : Char)
    (lonDeg lonMin lonSecW lonSecM : Nat) (lonH : Char)
    (altNeg : Bool) (altN : Nat) (sizeN : Nat) (sm : Bool)
    (hpN : Nat) (hm : Bool) (vpN : Nat) (vm : Bool) : List Char :=
  natChars latDeg ++ ([' '] ++ (natChars latMin ++ ([' '] ++
  (secL latSecW latSecM ++ ([' '] ++ ([latH] ++ ([' '] ++
  (natChars lonDeg ++ ([' '] ++ (natChars lonMin ++ ([' '] ++
  (secL lonSecW lonSecM ++ ([' '] ++ ([lonH] ++ ([' '] ++
  ((if altNeg then ['-'] else []) ++ (natChars altN ++ (['m'] ++ ([' '] ++
  (natChars sizeN ++ ((if sm then ['m'] else []) ++ ([' '] ++
  (natChars hpN ++ ((if hm then ['m'] else []) ++ ([' '] ++
  (natChars vpN ++ (if vm then ['m'] else [])))))))))))))))))))))))))))

/-- `mkRawL` as a string. -/
def mkRaw (latDeg latMin latSecW latSecM : Nat) (latH : Char)
    (lonDeg lonMin lonSecW lonSecM : Nat) (lonH : Char)
    (altNeg : Bool) (altN : Nat) (sizeN : Nat) (sm : Bool)
    (hpN : Nat) (hm : Bool) (vpN : Nat) (vm : Bool) : String :=
  String.mk (mkRawL latDeg latMin latSecW latSecM latH lonDeg lonMin
    lonSecW lonSecM lonH altNeg altN sizeN sm hpN hm vpN vm)

/-- The capture pieces `locRegex` extracts from a canonical strict LOC
text (group 9 spans the sign atom and the digit atom). -/
def mkCaps (latDeg latMin latSecW latSecM : Nat) (latH : Char)
    (lonDeg lonMin lonSecW lonSecM : Nat) (lonH : Char)
    (altNeg : Bool) (altN sizeN hpN vpN : Nat) : List (Nat × List Char) :=
  [(1, natChars latDeg), (2, natChars latMin),
   (3, secL latSecW latSecM), (4, [latH]),
   (5, natChars lonDeg), (6, natChars lonMin),
   (7, secL lonSecW lonSecM), (8, [lonH]),
   (9, (if altNeg then ['-'] else [])), (9, natChars altN),
   (10, natChars sizeN), (11, natChars hpN), (12, natChars vpN)]

/-! # Theorems -/

/-! ## Generic helper lemmas -/

/-- In a list of batches with pairwise distinct ids, `find?` by id
returns exactly a given member. -/
theorem find?_batch_of_nodup {l : List ScanBatch} {b : ScanBatch}
    (hnd : (l.map (·.id)).Nodup) (hb : b ∈ l) :
    l.find? (fun x => x.id == b.id) = some b := by
  induction l with
  | nil => cases hb
  | cons a t ih =>
    rw [List.map_cons, List.nodup_cons] at hnd
    rcases List.mem_cons.mp hb with rfl | hbt
    · simp [List.find?]
    · have hne : (a.id == b.id) = false := by
        refine beq_eq_false_iff_ne.mpr fun h => hnd.1 ?_
        rw [h]
        exact List.mem_map_of_mem (·.id) hbt
      rw [List.find?]
      rw [hne]
      exact ih hnd.2 hbt

/-! ## C10: `LookupLOC` panics exactly on the empty FQDN -/

/-- C10: `LookupLOC` in `internal/scanner/dns.go` is total only for
non-empty FQDN strings: on the empty string it evaluates
`fqdn[len(fqdn)-1]`, which panics with an index-out-of-range error
(modelled as `none`), while every non-empty FQDN yields a result. -/
theorem lookupLOC_total_iff_nonempty (nameservers : List String)
    (oracle : String → Question → UDPReply) (fqdn : String) :
    (fqdn = "" → LookupLOC nameservers oracle fqdn = none) ∧
    (fqdn ≠ "" → (LookupLOC nameservers oracle fqdn).isSome = true) := by
  constructor
  · rintro rfl
    rfl
  · intro h
    have hne : fqdn.toList ≠ [] := by
      intro hl
      apply h
      cases fqdn with
      | mk data =>
        show String.mk data = ""
        rw [show data = [] from hl]
    unfold LookupLOC ensureTrailingDot
    cases hlast : fqdn.toList.getLast? with
    | none => exact absurd (List.getLast?_eq_none_iff.mp hlast) hne
    | some c =>
      cases hc : c != '.' <;> simp [hc]

/-- Witness for C10 at the empty string and at `"a"`. -/
theorem lookupLOC_total_iff_nonempty_witness :
    (LookupLOC [] (fun _ _ => .err "e") "" = none) ∧
    (LookupLOC [] (fun _ _ => .err "e") "a").isSome = true :=
  ⟨(lookupLOC_total_iff_nonempty [] (fun _ _ => .err "e") "").1 rfl,
   (lookupLOC_total_iff_nonempty [] (fun _ _ => .err "e") "a").2 (by decide)⟩

/-! ## C8: what name the lookup actually queries -/

/-- C8 counterexample: the claim says the lookup strips a single
trailing `.` before issuing the query. `internal/scanner/dns.go` does
the opposite: it appends a `.` when absent and keeps an existing one.
At input `"example.com"` the issued question name is `"example.com."`,
not the claimed `stripSingleTrailingDot "example.com" = "example.com"`;
at `"example.com."` the name stays `"example.com."` instead of being
stripped. -/
theorem lookupLOC_does_not_strip_dot :
    ((LookupLOC ["8.8.8.8"] (fun _ _ => .err "e") "example.com").map
        fun r => r.2.name) = some "example.com." ∧
    stripSingleTrailingDot "example.com" = "example.com" ∧
    ((LookupLOC ["8.8.8.8"] (fun _ _ => .err "e") "example.com.").map
        fun r => r.2.name) = some "example.com." ∧
    stripSingleTrailingDot "example.com." = "example.com" ∧
    ("example.com." : String) ≠ "example.com" := by
  refine ⟨rfl, by decide, rfl, by decide, by decide⟩

/-- The nameserver loop keeps the original FQDN in the result and
produces mutually exclusive outcome categories. -/
theorem lookupFrom_shape (fqdn0 : String) (q : Question)
    (oracle : String → Question → UDPReply) :
    ∀ (nss : List String) (lastErr : Option String),
      (lookupFrom fqdn0 q oracle nss lastErr).fqdn = fqdn0 ∧
      ((lookupFrom fqdn0 q oracle nss lastErr).hasLOC = true →
        (lookupFrom fqdn0 q oracle nss lastErr).error = none) ∧
      ((lookupFrom fqdn0 q oracle nss lastErr).error ≠ none →
        (lookupFrom fqdn0 q oracle nss lastErr).hasLOC = false ∧
        (lookupFrom fqdn0 q oracle nss lastErr).rawRecord = "") := by
  intro nss
  induction nss with
  | nil =>
    intro lastErr
    refine ⟨rfl, ?_, ?_⟩
    · intro h
      cases h
    · intro _
      exact ⟨rfl, rfl⟩
  | cons ns rest ih =>
    intro lastErr
    rw [lookupFrom]
    split
    · exact ih _
    · split
      · split
        · refine ⟨rfl, ?_, ?_⟩
          · intro h
            cases h
          · intro _
            exact ⟨rfl, rfl⟩
        · exact ih _
      · split
        · exact ⟨rfl, fun _ => rfl, fun h => absurd rfl h⟩
        · exact ⟨rfl, fun _ => rfl, fun h => absurd rfl h⟩

/-- C8 amended: for every non-empty FQDN, `LookupLOC` issues its
`LOC` (type 29) / `IN` (class 1) query on the name with a trailing
`.` ensured — appended when absent, never stripped — and returns
exactly one of found-with-raw-record (no error), not-found, or error
(never found together with an error). -/
theorem lookupLOC_query_shape (nameservers : List String)
    (oracle : String → Question → UDPReply) (fqdn : String)
    (h : fqdn ≠ "") :
    ∃ r q, LookupLOC nameservers oracle fqdn = some (r, q) ∧
      ensureTrailingDot fqdn = some q.name ∧ q.qtype = 29 ∧ q.qcls = 1 ∧
      r.fqdn = fqdn ∧
      (r.hasLOC = true → r.error = none) ∧
      (r.error ≠ none → r.hasLOC = false ∧ r.rawRecord = "") := by
  have hne : fqdn.toList ≠ [] := by
    intro hl
    apply h
    cases fqdn with
    | mk data =>
      show String.mk data = ""
      rw [show data = [] from hl]
  obtain ⟨name, hname⟩ : ∃ nm, ensureTrailingDot fqdn = some nm := by
    unfold ensureTrailingDot
    cases hlast : fqdn.toList.getLast? with
    | none => exact absurd (List.getLast?_eq_none_iff.mp hlast) hne
    | some c => cases hc : c != '.' <;> simp [hc]
  refine ⟨lookupFrom fqdn ⟨name, 29, 1⟩ oracle nameservers none,
          ⟨name, 29, 1⟩, ?_, hname, rfl, rfl, ?_⟩
  · unfold LookupLOC
    rw [hname]
  · exact lookupFrom_shape fqdn ⟨name, 29, 1⟩ oracle nameservers none

/-- Witness for C8's amended theorem at `"example.com"` with one
nameserver whose reply contains a LOC answer. -/
theorem lookupLOC_query_shape_witness :
    ∃ r q,
      LookupLOC ["8.8.8.8"]
        (fun _ _ => .resp 0 [.loc "52 22 23.000 N 4 53 32.000 E -2.00m"])
        "example.com" = some (r, q) ∧
      ensureTrailingDot "example.com" = some q.name ∧ q.qtype = 29 ∧
      q.qcls = 1 ∧ r.fqdn = "example.com" ∧
      (r.hasLOC = true → r.error = none) ∧
      (r.error ≠ none → r.hasLOC = false ∧ r.rawRecord = "") :=
  lookupLOC_query_shape ["8.8.8.8"]
    (fun _ _ => .resp 0 [.loc "52 22 23.000 N 4 53 32.000 E -2.00m"])
    "example.com" (by decide)

/-! ## C2: one reaper tick reclaims exactly the dead sessions' batches -/

/-- C2: after one reaper tick (`runOnce`), every batch that was
`in_flight` for a session whose `last_heartbeat` is older than the
heartbeat timeout is back in the queue as `resetBatch b` — same id,
status `pending`, with `session_id`, `scanner_id` and `assigned_at`
all null — while an `in_flight` batch of a session with a recent
heartbeat is unchanged. -/
theorem runOnce_dead_sessions (s : Store) (now bt ht : Int) :
    (∀ b ∈ s.batches, b.status = "in_flight" →
      ∀ sid, b.sessionId = some sid →
        (∃ t ∈ s.sessions, t.id = sid ∧ t.lastHeartbeat < now - ht) →
        resetBatch b ∈ (runOnce s now bt ht).batches ∧
        (resetBatch b).id = b.id ∧ (resetBatch b).status = "pending" ∧
        (resetBatch b).sessionId = none ∧ (resetBatch b).scannerId = none ∧
        (resetBatch b).assignedAt = none) ∧
    (∀ b ∈ s.batches, b.status = "in_flight" →
      ∀ sid, b.sessionId = some sid →
        (∀ t ∈ s.sessions, t.id = sid → now - ht ≤ t.lastHeartbeat) →
        b ∈ (runOnce s now bt ht).batches) := by
  have hbat : (runOnce s now bt ht).batches =
      (s.batches.map fun b =>
        if b.status == "in_flight" &&
            joinsDeadSession s.sessions now ht b.sessionId then
          resetBatch b
        else b).map fun b =>
        if b.status == "in_flight" && b.sessionId.isNone &&
            (match b.assignedAt with
             | some t => decide (t < now - bt)
             | none => false) then
          resetBatch b
        else b := rfl
  constructor
  · rintro b hb hst sid hsid ⟨t, htmem, htid, hlt⟩
    have hdead : joinsDeadSession s.sessions now ht b.sessionId = true := by
      rw [hsid]
      unfold joinsDeadSession
      refine List.any_eq_true.mpr ⟨t, htmem, ?_⟩
      rw [htid]
      simp [hlt]
    have h1 : (if b.status == "in_flight" &&
        joinsDeadSession s.sessions now ht b.sessionId then
          resetBatch b else b) = resetBatch b := by
      rw [if_pos]
      rw [hst, hdead]
      rfl
    have h2 : (if (resetBatch b).status == "in_flight" &&
        (resetBatch b).sessionId.isNone &&
        (match (resetBatch b).assignedAt with
         | some t => decide (t < now - bt)
         | none => false) then resetBatch (resetBatch b) else resetBatch b) =
        resetBatch b := by
      rw [if_neg]
      show ¬(("pending" == "in_flight") && _ && _) = true
      rw [show (("pending" : String) == "in_flight") = false from rfl]
      simp
    refine ⟨?_, rfl, rfl, rfl, rfl, rfl⟩
    rw [hbat]
    refine List.mem_map.mpr ⟨_, List.mem_map.mpr ⟨b, hb, h1⟩, h2⟩
  · intro b hb hst sid hsid hlive
    have hdead : joinsDeadSession s.sessions now ht b.sessionId = false := by
      rw [hsid]
      unfold joinsDeadSession
      refine List.any_eq_false.mpr fun t htmem => ?_
      by_cases htid : t.id = sid
      · have : decide (t.lastHeartbeat < now - ht) = false := by
          simp [Int.not_lt.mpr (hlive t htmem htid)]
        simp [this]
      · simp [htid]
    have h1 : (if b.status == "in_flight" &&
        joinsDeadSession s.sessions now ht b.sessionId then
          resetBatch b else b) = b := by
      rw [if_neg]
      rw [hdead]
      simp
    have h2 : (if b.status == "in_flight" && b.sessionId.isNone &&
        (match b.assignedAt with
         | some t => decide (t < now - bt)
         | none => false) then resetBatch b else b) = b := by
      rw [if_neg]
      rw [hsid]
      simp
    rw [hbat]
    refine List.mem_map.mpr ⟨_, List.mem_map.mpr ⟨b, hb, h1⟩, ?_⟩
    exact h2

/-- Witness for C2: a dead session's in-flight batch is reset by the
tick, a live session's in-flight batch survives untouched. -/
theorem runOnce_dead_sessions_witness :
    (resetBatch
        { id := 1, fileId := 1, lineStart := 1, lineEnd := 2,
          domains := "a.com", status := "in_flight", assignedAt := some 10,
          scannerId := some "c", sessionId := some "s1" } ∈
      (runOnce
        { files := [],
          batches :=
            [{ id := 1, fileId := 1, lineStart := 1, lineEnd := 2,
               domains := "a.com", status := "in_flight",
               assignedAt := some 10, scannerId := some "c",
               sessionId := some "s1" },
             { id := 2, fileId := 1, lineStart := 3, lineEnd := 4,
               domains := "b.com", status := "in_flight",
               assignedAt := some 10, scannerId := some "c",
               sessionId := some "s2" }],
          sessions :=
            [{ id := "s1", clientId := "c", lastHeartbeat := 0 },
             { id := "s2", clientId := "c", lastHeartbeat := 100 }],
          locRecords := [] } 100 999 50).batches) ∧
    ({ id := 2, fileId := 1, lineStart := 3, lineEnd := 4,
       domains := "b.com", status := "in_flight", assignedAt := some 10,
       scannerId := some "c", sessionId := some "s2" } : ScanBatch) ∈
      (runOnce
        { files := [],
          batches :=
            [{ id := 1, fileId := 1, lineStart := 1, lineEnd := 2,
               domains := "a.com", status := "in_flight",
               assignedAt := some 10, scannerId := some "c",
               sessionId := some "s1" },
             { id := 2, fileId := 1, lineStart := 3, lineEnd := 4,
               domains := "b.com", status := "in_flight",
               assignedAt := some 10, scannerId := some "c",
               sessionId := some "s2" }],
          sessions :=
            [{ id := "s1", clientId := "c", lastHeartbeat := 0 },
             { id := "s2", clientId := "c", lastHeartbeat := 100 }],
          locRecords := [] } 100 999 50).batches :=
  ⟨((runOnce_dead_sessions _ 100 999 50).1 _ (by decide) rfl "s1" rfl
      ⟨{ id := "s1", clientId := "c", lastHeartbeat := 0 }, by decide, rfl,
        by decide⟩).1,
   (runOnce_dead_sessions _ 100 999 50).2 _ (by decide) rfl "s2" rfl
     (by decide)⟩

/-! ## C1: completing a batch -/

/-- C1: for an existing batch `b` owned by file `f`, `CompleteBatch`
reads `(file_id, assigned_at)`, deletes `b`'s row and increments `f`'s
`batches_completed` in one transaction: the call returns `f`'s id with
`b`'s `assigned_at`, the new state holds `f` with `batches_completed`
exactly one higher and every other field (and every other file)
unchanged. -/
theorem CompleteBatch_spec (s : Store) (b : ScanBatch) (f : DomainFile)
    (hnd : (s.batches.map (·.id)).Nodup)
    (hb : b ∈ s.batches) (hf : f ∈ s.files) (hown : f.id = b.fileId) :
    CompleteBatch s b.id = some ((f.id, b.assignedAt),
      { s with batches := s.batches.filter fun x => !(x.id == b.id),
               files := s.files.map (bumpCompleted b.fileId) }) ∧
    { f with batchesCompleted := f.batchesCompleted + 1 } ∈
      s.files.map (bumpCompleted b.fileId) ∧
    ∀ g ∈ s.files, g.id ≠ f.id → g ∈ s.files.map (bumpCompleted b.fileId) := by
  refine ⟨?_, ?_, ?_⟩
  · unfold CompleteBatch
    rw [find?_batch_of_nodup hnd hb, hown]
  · have hbump : bumpCompleted b.fileId f =
        { f with batchesCompleted := f.batchesCompleted + 1 } := by
      unfold bumpCompleted
      rw [if_pos (beq_iff_eq.mpr hown)]
    exact hbump ▸ List.mem_map_of_mem _ hf
  · intro g hg hne
    have hbump : bumpCompleted b.fileId g = g := by
      unfold bumpCompleted
      rw [if_neg]
      intro hc
      exact hne ((beq_iff_eq.mp hc).trans hown.symm)
    exact hbump ▸ List.mem_map_of_mem _ hg

/-- Witness for C1 on a two-file, two-batch store. -/
theorem CompleteBatch_spec_witness :
    CompleteBatch
      { files :=
          [{ id := 1, filename := "a", url := "u", sizeBytes := 9,
             processedLines := 8, batchesCreated := 2, batchesCompleted := 0,
             feedingComplete := false, status := "processing",
             startedAt := some 3, completedAt := none },
           { id := 2, filename := "b", url := "u", sizeBytes := 9,
             processedLines := 0, batchesCreated := 0, batchesCompleted := 0,
             feedingComplete := false, status := "pending",
             startedAt := none, completedAt := none }],
        batches :=
          [{ id := 5, fileId := 1, lineStart := 1, lineEnd := 4,
             domains := "a.com", status := "in_flight", assignedAt := some 42,
             scannerId := some "c", sessionId := some "s" },
           { id := 6, fileId := 1, lineStart := 5, lineEnd := 8,
             domains := "b.com", status := "pending", assignedAt := none,
             scannerId := none, sessionId := none }],
        sessions := [], locRecords := [] } 5 =
    some ((1, some 42),
      { files :=
          [{ id := 1, filename := "a", url := "u", sizeBytes := 9,
             processedLines := 8, batchesCreated := 2, batchesCompleted := 1,
             feedingComplete := false, status := "processing",
             startedAt := some 3, completedAt := none },
           { id := 2, filename := "b", url := "u", sizeBytes := 9,
             processedLines := 0, batchesCreated := 0, batchesCompleted := 0,
             feedingComplete := false, status := "pending",
             startedAt := none, completedAt := none }],
        batches :=
          [{ id := 6, fileId := 1, lineStart := 5, lineEnd := 8,
             domains := "b.com", status := "pending", assignedAt := none,
             scannerId := none, sessionId := none }],
        sessions := [], locRecords := [] }) := by
  have h := (CompleteBatch_spec
    { files :=
        [{ id := 1, filename := "a", url := "u", sizeBytes := 9,
           processedLines := 8, batchesCreated := 2, batchesCompleted := 0,
           feedingComplete := false, status := "processing",
           startedAt := some 3, completedAt := none },
         { id := 2, filename := "b", url := "u", sizeBytes := 9,
           processedLines := 0, batchesCreated := 0, batchesCompleted := 0,
           feedingComplete := false, status := "pending",
           startedAt := none, completedAt := none }],
      batches :=
        [{ id := 5, fileId := 1, lineStart := 1, lineEnd := 4,
           domains := "a.com", status := "in_flight", assignedAt := some 42,
           scannerId := some "c", sessionId := some "s" },
         { id := 6, fileId := 1, lineStart := 5, lineEnd := 8,
           domains := "b.com", status := "pending", assignedAt := none,
           scannerId := none, sessionId := none }],
      sessions := [], locRecords := [] }
    { id := 5, fileId := 1, lineStart := 1, lineEnd := 4,
      domains := "a.com", status := "in_flight", assignedAt := some 42,
      scannerId := some "c", sessionId := some "s" }
    { id := 1, filename := "a", url := "u", sizeBytes := 9,
      processedLines := 8, batchesCreated := 2, batchesCompleted := 0,
      feedingComplete := false, status := "processing",
      startedAt := some 3, completedAt := none }
    (by decide) (by decide) (by decide) rfl).1
  exact h.trans (by decide)

/-! ## C6: which file the feeder picks next -/

/-- C6 counterexample: the claim says the next-file query picks the
lowest-`filename` eligible file. The SQL orders by
`CASE status WHEN 'processing' THEN 0 ELSE 1 END` first: with an
eligible `pending` file named `"a"` and an eligible `processing` file
named `"b"`, the code picks `"b"`, not the lowest filename `"a"`. -/
theorem nextFile_prefers_processing_over_filename :
    ((GetNextFileToProcess
        { files :=
            [{ id := 1, filename := "a", url := "u", sizeBytes := 1,
               processedLines := 0, batchesCreated := 0,
               batchesCompleted := 0, feedingComplete := false,
               status := "pending", startedAt := none, completedAt := none },
             { id := 2, filename := "b", url := "u", sizeBytes := 1,
               processedLines := 0, batchesCreated := 0,
               batchesCompleted := 0, feedingComplete := false,
               status := "processing", startedAt := some 0,
               completedAt := none }],
          batches := [], sessions := [], locRecords := [] } 0).1.map
        DomainFile.filename = some "b") ∧
    eligibleFile
      { id := 1, filename := "a", url := "u", sizeBytes := 1,
        processedLines := 0, batchesCreated := 0, batchesCompleted := 0,
        feedingComplete := false, status := "pending", startedAt := none,
        completedAt := none } = true ∧
    strLt "a" "b" = true := by
  refine ⟨by decide, by decide, by decide⟩

theorem charsLt_irrefl (l : List Char) : charsLt l l = false := by
  induction l with
  | nil => rfl
  | cons a s ih => simpa [charsLt] using ih

theorem charsLt_trans : ∀ {a b c : List Char},
    charsLt a b = true → charsLt b c = true → charsLt a c = true := by
  intro a
  induction a with
  | nil =>
    intro b c hab hbc
    cases b with
    | nil => cases hab
    | cons y t =>
      cases c with
      | nil => cases hbc
      | cons z u => rfl
  | cons x s ih =>
    intro b c hab hbc
    cases b with
    | nil => cases hab
    | cons y t =>
      cases c with
      | nil => cases hbc
      | cons z u =>
        by_cases hxy : x.toNat < y.toNat
        · by_cases hyz : y.toNat < z.toNat
          · have hxz : x.toNat < z.toNat := hxy.trans hyz
            simp [charsLt, hxz]
          · by_cases hzy : z.toNat < y.toNat
            · exfalso
              simp [charsLt, hyz, hzy] at hbc
            · have hxz : x.toNat < z.toNat := by omega
              simp [charsLt, hxz]
        · by_cases hyx : y.toNat < x.toNat
          · exfalso
            simp [charsLt, hxy, hyx] at hab
          · have hab' : charsLt s t = true := by
              simpa [charsLt, hxy, hyx] using hab
            by_cases hyz : y.toNat < z.toNat
            · have hxz : x.toNat < z.toNat := by omega
              simp [charsLt, hxz]
            · by_cases hzy : z.toNat < y.toNat
              · exfalso
                simp [charsLt, hyz, hzy] at hbc
              · have hbc' : charsLt t u = true := by
                  simpa [charsLt, hyz, hzy] using hbc
                have hxz : ¬ x.toNat < z.toNat := by omega
                have hzx : ¬ z.toNat < x.toNat := by omega
                simp [charsLt, hxz, hzx]
                exact ih hab' hbc'

theorem fileBefore_irrefl (f : DomainFile) : ¬ fileBefore f f := by
  unfold fileBefore
  rintro (h | ⟨-, h⟩)
  · exact lt_irrefl _ h
  · rw [strLt, charsLt_irrefl] at h
    cases h

theorem fileBefore_trans {a b c : DomainFile} :
    fileBefore a b → fileBefore b c → fileBefore a c := by
  unfold fileBefore
  rintro (h1 | ⟨e1, h1⟩) (h2 | ⟨e2, h2⟩)
  · exact Or.inl (h1.trans h2)
  · exact Or.inl (e2 ▸ h1)
  · exact Or.inl (lt_of_le_of_lt (le_of_eq e1) h2)
  · exact Or.inr ⟨e1.trans e2, charsLt_trans h1 h2⟩

/-- Specification of the best-so-far fold of `pickNextFile`. -/
theorem pickFold_spec (l : List DomainFile) :
    ∀ (acc : Option DomainFile) (r : DomainFile),
      l.foldl pickBest acc = some r →
      (acc = some r ∨ r ∈ l) ∧ (∀ x ∈ l, ¬ fileBefore x r) ∧
      (∀ a, acc = some a → (r = a ∨ fileBefore r a)) := by
  induction l with
  | nil =>
    intro acc r h
    rw [List.foldl_nil] at h
    refine ⟨Or.inl h, by simp, fun a ha => ?_⟩
    rw [h] at ha
    exact Or.inl (Option.some.inj ha)
  | cons f t ih =>
    intro acc r h
    rw [List.foldl_cons] at h
    cases acc with
    | none =>
      obtain ⟨hin, hall, hrel⟩ := ih (some f) r h
      refine ⟨?_, ?_, ?_⟩
      · rcases hin with ha | hrt
        · exact Or.inr (List.mem_cons.mpr (Or.inl (Option.some.inj ha).symm))
        · exact Or.inr (List.mem_cons_of_mem _ hrt)
      · intro x hx
        rcases List.mem_cons.mp hx with hxf | hxt
        · rcases hrel x (by rw [hxf]) with hre | hrx
          · rw [hre]
            exact fileBefore_irrefl x
          · exact fun hxr => fileBefore_irrefl x (fileBefore_trans hxr hrx)
        · exact hall x hxt
      · intro a ha
        cases ha
    | some g =>
      by_cases hfg : fileBefore f g
      · have hstep : pickBest (some g) f = some f := by
          show (if fileBefore f g then some f else some g) = some f
          rw [if_pos hfg]
        rw [hstep] at h
        obtain ⟨hin, hall, hrel⟩ := ih (some f) r h
        refine ⟨?_, ?_, ?_⟩
        · rcases hin with ha | hrt
          · exact Or.inr (List.mem_cons.mpr (Or.inl (Option.some.inj ha).symm))
          · exact Or.inr (List.mem_cons_of_mem _ hrt)
        · intro x hx
          rcases List.mem_cons.mp hx with hxf | hxt
          · rcases hrel x (by rw [hxf]) with hre | hrx
            · rw [hre]
              exact fileBefore_irrefl x
            · exact fun hxr => fileBefore_irrefl x (fileBefore_trans hxr hrx)
          · exact hall x hxt
        · intro a ha
          have hag : a = g := (Option.some.inj ha).symm
          rcases hrel f rfl with rfl | hrf
          · exact Or.inr (hag ▸ hfg)
          · exact Or.inr (hag ▸ fileBefore_trans hrf hfg)
      · have hstep : pickBest (some g) f = some g := by
          show (if fileBefore f g then some f else some g) = some g
          rw [if_neg hfg]
        rw [hstep] at h
        obtain ⟨hin, hall, hrel⟩ := ih (some g) r h
        refine ⟨?_, ?_, ?_⟩
        · rcases hin with ha | hrt
          · exact Or.inl ha
          · exact Or.inr (List.mem_cons_of_mem _ hrt)
        · intro x hx
          rcases List.mem_cons.mp hx with rfl | hxt
          · rcases hrel g rfl with rfl | hrg
            · exact hfg
            · exact fun hxr => hfg (fileBefore_trans hxr hrg)
          · exact hall x hxt
        · intro a ha
          have hag : a = g := (Option.some.inj ha).symm
          subst hag
          exact hrel a rfl

/-- The selected row is an eligible member no eligible row precedes in
the `ORDER BY`. -/
theorem pickNextFile_spec (files : List DomainFile) (g : DomainFile)
    (h : pickNextFile files = some g) :
    g ∈ files ∧ eligibleFile g = true ∧
    ∀ x ∈ files, eligibleFile x = true → ¬ fileBefore x g := by
  unfold pickNextFile at h
  obtain ⟨hin, hall, -⟩ := pickFold_spec (files.filter eligibleFile) none g h
  have hg : g ∈ files.filter eligibleFile := by
    rcases hin with h' | h'
    · cases h'
    · exact h'
  have hm := List.mem_filter.mp hg
  exact ⟨hm.1, hm.2, fun x hx he => hall x (List.mem_filter.mpr ⟨hx, he⟩)⟩

/-- C6 amended: `GetNextFileToProcess` selects, among the files with
status in {`processing`, `pending`} not excluded by the
feeding-done-but-draining predicate, the minimum under the order
"status `processing` first, then lowest `filename`" — not the globally
lowest filename. If the picked file was `pending`, the row is promoted
to `processing` with `started_at = now` (the returned struct carries
the new status). -/
theorem GetNextFileToProcess_spec (s : Store) (now : Int) (g : DomainFile)
    (h : pickNextFile s.files = some g) :
    g ∈ s.files ∧ eligibleFile g = true ∧
    (∀ x ∈ s.files, eligibleFile x = true → ¬ fileBefore x g) ∧
    (g.status = "pending" →
      GetNextFileToProcess s now =
        (some { g with status := "processing" },
         { s with files := s.files.map fun x =>
             if x.id == g.id then
               { x with status := "processing", startedAt := some now }
             else x })) ∧
    (g.status ≠ "pending" → GetNextFileToProcess s now = (some g, s)) := by
  obtain ⟨hmem, hel, hmin⟩ := pickNextFile_spec s.files g h
  have hred : GetNextFileToProcess s now =
      if (g.status == "pending") = true then
        (some { g with status := "processing" },
         { s with files := s.files.map fun x =>
             if x.id == g.id then
               { x with status := "processing", startedAt := some now }
             else x })
      else (some g, s) := by
    unfold GetNextFileToProcess
    rw [h]
  refine ⟨hmem, hel, hmin, ?_, ?_⟩
  · intro hp
    rw [hred, if_pos (beq_iff_eq.mpr hp)]
  · intro hp
    rw [hred, if_neg fun hc => hp (beq_iff_eq.mp hc)]

/-- Witness for C6's amended theorem: a lone eligible pending file is
picked and promoted. -/
theorem GetNextFileToProcess_spec_witness :
    GetNextFileToProcess
      { files :=
          [{ id := 1, filename := "a", url := "u", sizeBytes := 1,
             processedLines := 0, batchesCreated := 0, batchesCompleted := 0,
             feedingComplete := false, status := "pending",
             startedAt := none, completedAt := none }],
        batches := [], sessions := [], locRecords := [] } 7 =
    (some { id := 1, filename := "a", url := "u", sizeBytes := 1,
            processedLines := 0, batchesCreated := 0, batchesCompleted := 0,
            feedingComplete := false, status := "processing",
            startedAt := none, completedAt := none },
     { files :=
         [{ id := 1, filename := "a", url := "u", sizeBytes := 1,
            processedLines := 0, batchesCreated := 0, batchesCompleted := 0,
            feedingComplete := false, status := "processing",
            startedAt := some 7, completedAt := none }],
       batches := [], sessions := [], locRecords := [] }) := by
  have h := (GetNextFileToProcess_spec
    { files :=
        [{ id := 1, filename := "a", url := "u", sizeBytes := 1,
           processedLines := 0, batchesCreated := 0, batchesCompleted := 0,
           feedingComplete := false, status := "pending",
           startedAt := none, completedAt := none }],
      batches := [], sessions := [], locRecords := [] } 7
    { id := 1, filename := "a", url := "u", sizeBytes := 1,
      processedLines := 0, batchesCreated := 0, batchesCompleted := 0,
      feedingComplete := false, status := "pending",
      startedAt := none, completedAt := none } (by decide)).2.2.2.1 rfl
  exact h.trans (by decide)

/-! ## C3: late submissions -/

/-- C3 counterexample: the claim says a submission for a batch whose
row no longer exists is a no-op that does not fail. The handler calls
`CompleteBatch`, whose row lookup errors with no rows, and answers
HTTP 500 `failed to complete batch`: on a store with no batches, the
submission for batch 7 fails instead of no-opping. -/
theorem SubmitResults_errors_on_missing_batch :
    (SubmitResults
      { files :=
          [{ id := 1, filename := "a", url := "u", sizeBytes := 1,
             processedLines := 0, batchesCreated := 1, batchesCompleted := 1,
             feedingComplete := true, status := "processing",
             startedAt := none, completedAt := none }],
        batches := [], sessions := [], locRecords := [] }
      (fun _ => none)
      { batchId := 7, domainsChecked := 3, locRecords := [] } 0).1 =
    .serverError "failed to complete batch" := by decide

theorem UpsertLOCRecord_files (s : Store) (rd : String) (rec : ApiLOCRecord)
    (now : Int) : (UpsertLOCRecord s rd rec now).2.files = s.files := by
  unfold UpsertLOCRecord
  split
  · rfl
  · split <;> rfl

theorem UpsertLOCRecord_batches (s : Store) (rd : String) (rec : ApiLOCRecord)
    (now : Int) : (UpsertLOCRecord s rd rec now).2.batches = s.batches := by
  unfold UpsertLOCRecord
  split
  · rfl
  · split <;> rfl

/-- The upsert loop touches only `loc_records`. -/
theorem submitFold_state (rootOf : String → Option String) (now : Int) :
    ∀ (recs : List ApiLOCRecord) (acc : Nat × Store),
      (recs.foldl (submitStep rootOf now) acc).2.files = acc.2.files ∧
      (recs.foldl (submitStep rootOf now) acc).2.batches = acc.2.batches := by
  intro recs
  induction recs with
  | nil => intro acc; exact ⟨rfl, rfl⟩
  | cons loc rest ih =>
    intro acc
    rw [List.foldl_cons]
    obtain ⟨h1, h2⟩ := ih (submitStep rootOf now acc loc)
    refine ⟨h1.trans ?_, h2.trans ?_⟩
    · exact UpsertLOCRecord_files _ _ _ _
    · exact UpsertLOCRecord_batches _ _ _ _

/-- `CompleteBatch` fails exactly when no row has the id. -/
theorem CompleteBatch_none (s : Store) (batchId : Int)
    (h : ∀ b ∈ s.batches, b.id ≠ batchId) :
    CompleteBatch s batchId = none := by
  unfold CompleteBatch
  rw [List.find?_eq_none.mpr fun x hx => by simpa using h x hx]

/-- C3 amended: for a non-zero batch id, a submission whose batch row
still exists succeeds (HTTP 200) and removes the row, while a
submission whose batch has already been completed by a reassignment
(no row with that id) FAILS with HTTP 500 `failed to complete batch` —
it is not the no-op the spec describes — though it indeed leaves every
file row (in particular the file counters) unchanged, the LOC-record
upserts having already been committed separately. -/
theorem SubmitResults_late (s : Store) (rootOf : String → Option String)
    (req : SubmitBatchRequest) (now : Int) (hB : req.batchId ≠ 0) :
    ((∃ b ∈ s.batches, b.id = req.batchId) →
      isOk (SubmitResults s rootOf req now).1 = true ∧
      ∀ x ∈ (SubmitResults s rootOf req now).2.batches, x.id ≠ req.batchId) ∧
    ((∀ b ∈ s.batches, b.id ≠ req.batchId) →
      (SubmitResults s rootOf req now).1 =
        .serverError "failed to complete batch" ∧
      (SubmitResults s rootOf req now).2.files = s.files) := by
  obtain ⟨hUf, hUb⟩ := submitFold_state rootOf now req.locRecords (0, s)
  have hred : SubmitResults s rootOf req now =
      match CompleteBatch (req.locRecords.foldl (submitStep rootOf now) (0, s)).2
          req.batchId with
      | none => (.serverError "failed to complete batch",
          (req.locRecords.foldl (submitStep rootOf now) (0, s)).2)
      | some ((fileId, _), s2) =>
        (.ok (req.locRecords.foldl (submitStep rootOf now) (0, s)).1,
         (CheckAndMarkFileComplete s2 fileId now).2) := by
    unfold SubmitResults
    rw [if_neg fun hc => hB (beq_iff_eq.mp hc)]
  constructor
  · rintro ⟨b, hbmem, hbid⟩
    have hfind : ((req.locRecords.foldl (submitStep rootOf now)
        (0, s)).2.batches.find? fun x => x.id == req.batchId).isSome = true := by
      rw [hUb]
      exact List.find?_isSome.mpr ⟨b, hbmem, by simp [hbid]⟩
    obtain ⟨b', hb'⟩ := Option.isSome_iff_exists.mp hfind
    have hcb : CompleteBatch
        (req.locRecords.foldl (submitStep rootOf now) (0, s)).2 req.batchId =
        some ((b'.fileId, b'.assignedAt),
          { (req.locRecords.foldl (submitStep rootOf now) (0, s)).2 with
            batches := (req.locRecords.foldl (submitStep rootOf now)
              (0, s)).2.batches.filter fun x => !(x.id == req.batchId),
            files := (req.locRecords.foldl (submitStep rootOf now)
              (0, s)).2.files.map (bumpCompleted b'.fileId) }) := by
      unfold CompleteBatch
      rw [hb']
    rw [hred, hcb]
    refine ⟨rfl, ?_⟩
    intro x hx
    have := (List.mem_filter.mp hx).2
    intro hxe
    rw [hxe] at this
    simp at this
  · intro hmiss
    have hcb : CompleteBatch
        (req.locRecords.foldl (submitStep rootOf now) (0, s)).2 req.batchId =
        none := by
      refine CompleteBatch_none _ _ ?_
      rw [hUb]
      exact hmiss
    rw [hred, hcb]
    exact ⟨rfl, hUf⟩

/-- Witness for C3's amended theorem: a store holding batch 7 accepts
the submission; a store without it answers the 500 error. -/
theorem SubmitResults_late_witness :
    isOk (SubmitResults
      { files := [], batches :=
          [{ id := 7, fileId := 1, lineStart := 1, lineEnd := 2,
             domains := "a.com", status := "in_flight", assignedAt := some 1,
             scannerId := some "c", sessionId := some "s" }],
        sessions := [], locRecords := [] }
      (fun _ => none)
      { batchId := 7, domainsChecked := 2, locRecords := [] } 0).1 = true ∧
    (SubmitResults
      { files := [], batches := [], sessions := [], locRecords := [] }
      (fun _ => none)
      { batchId := 7, domainsChecked := 2, locRecords := [] } 0).1 =
      .serverError "failed to complete batch" :=
  ⟨((SubmitResults_late
      { files := [], batches :=
          [{ id := 7, fileId := 1, lineStart := 1, lineEnd := 2,
             domains := "a.com", status := "in_flight", assignedAt := some 1,
             scannerId := some "c", sessionId := some "s" }],
        sessions := [], locRecords := [] }
      (fun _ => none)
      { batchId := 7, domainsChecked := 2, locRecords := [] } 0
      (by decide)).1
    ⟨{ id := 7, fileId := 1, lineStart := 1, lineEnd := 2,
       domains := "a.com", status := "in_flight", assignedAt := some 1,
       scannerId := some "c", sessionId := some "s" },
     by decide, rfl⟩).1,
   ((SubmitResults_late
      { files := [], batches := [], sessions := [], locRecords := [] }
      (fun _ => none)
      { batchId := 7, domainsChecked := 2, locRecords := [] } 0
      (by decide)).2 (by decide)).1⟩

/-! ## C5: feeder resume -/

/-- C5 counterexample: the claim says the first batch after a restart
with `processed_lines = K` has `line_start = K+1`. When line `K+1` is
a comment (or blank) the feeder skips it and the first batch starts at
the first *domain* line after the cursor: with `K = 1` over
`["a", "#c", "b"]` and batch size 1, the first (and only) batch has
`line_start = 3`, not `2`. -/
theorem feeder_resume_not_kplus1 :
    (processFile 1 1 ["a", "#c", "b"]).map FeederBatch.lineStart = [3] ∧
    ((1 : Int) + 1 ≠ 3) := by
  refine ⟨by decide, by decide⟩

/-- Every batch produced by the loop starts after the resume cursor,
provided a non-empty buffer already started after it. -/
theorem feedGo_lineStart_gt (batchSize : Nat) (K : Int) :
    ∀ (lines : List String) (n : Int) (buf : List String) (bst : Int),
      (buf = [] ∨ K < bst) →
      ∀ b ∈ feedGo batchSize K lines n buf bst, K < b.lineStart := by
  intro lines
  induction lines with
  | nil =>
    intro n buf bst hbuf b hb
    rw [feedGo] at hb
    rcases hbuf with rfl | hlt
    · simp at hb
    · by_cases he : buf.isEmpty
      · rw [if_pos he] at hb
        cases hb
      · rw [if_neg he] at hb
        rcases List.mem_singleton.mp hb with rfl
        exact hlt
  | cons l rest ih =>
    intro n buf bst hbuf b hb
    rw [feedGo] at hb
    by_cases hskip : n + 1 ≤ K
    · rw [if_pos hskip] at hb
      exact ih _ buf bst hbuf b hb
    · rw [if_neg hskip] at hb
      have hgt : K < n + 1 := lt_of_not_le hskip
      by_cases hbad : skippedLine l = true
      · rw [if_pos hbad] at hb
        exact ih _ buf bst hbuf b hb
      · rw [if_neg hbad] at hb
        have hbst' : K < if buf.isEmpty then n + 1 else bst := by
          by_cases he : buf.isEmpty
          · rw [if_pos he]
            exact hgt
          · rw [if_neg he]
            rcases hbuf with rfl | hlt
            · cases he rfl
            · exact hlt
        by_cases hfull : batchSize ≤ buf.length + 1
        · rw [if_pos hfull] at hb
          rcases List.mem_cons.mp hb with rfl | hb'
          · exact hbst'
          · exact ih _ [] _ (Or.inl rfl) b hb'
        · rw [if_neg hfull] at hb
          refine ih _ (buf ++ [trimSpace l]) _ (Or.inr hbst') b hb
      -- done

/-- With a non-empty buffer, the first batch emitted starts at the
buffer's `batchStart`. -/
theorem feedGo_head_of_ne (batchSize : Nat) (K : Int) :
    ∀ (lines : List String) (n : Int) (buf : List String) (bst : Int),
      buf ≠ [] →
      (feedGo batchSize K lines n buf bst).head?.map FeederBatch.lineStart =
        some bst := by
  intro lines
  induction lines with
  | nil =>
    intro n buf bst hbuf
    rw [feedGo, if_neg (by simpa using hbuf)]
    rfl
  | cons l rest ih =>
    intro n buf bst hbuf
    rw [feedGo]
    by_cases hskip : n + 1 ≤ K
    · rw [if_pos hskip]
      exact ih _ buf bst hbuf
    · rw [if_neg hskip]
      by_cases hbad : skippedLine l = true
      · rw [if_pos hbad]
        exact ih _ buf bst hbuf
      · rw [if_neg hbad]
        have hemp : buf.isEmpty = false := by simpa using hbuf
        rw [hemp]
        by_cases hfull : batchSize ≤ buf.length + 1
        · rw [if_pos hfull]
          simp
        · rw [if_neg hfull]
          exact ih _ (buf ++ [trimSpace l]) bst (by simp)

/-- With an empty buffer, the first batch emitted starts at the first
fed line. -/
theorem feedGo_head_of_empty (batchSize : Nat) (K : Int) :
    ∀ (lines : List String) (n : Int) (bst : Int),
      (feedGo batchSize K lines n [] bst).head?.map FeederBatch.lineStart =
        firstFedLine K lines n := by
  intro lines
  induction lines with
  | nil => intro n bst; rfl
  | cons l rest ih =>
    intro n bst
    rw [feedGo, firstFedLine]
    by_cases hskip : n + 1 ≤ K
    · rw [if_pos hskip, if_pos hskip]
      exact ih _ bst
    · rw [if_neg hskip, if_neg hskip]
      by_cases hbad : skippedLine l = true
      · rw [if_pos hbad, if_pos hbad]
        exact ih _ bst
      · rw [if_neg hbad, if_neg hbad]
        by_cases hfull : batchSize ≤ ([] : List String).length + 1
        · rw [if_pos hfull]
          simp
        · rw [if_neg hfull]
          exact feedGo_head_of_ne batchSize K rest (n + 1)
            ([] ++ [trimSpace l]) (n + 1) (by simp)

/-- C5 amended: restarting the feeder on a file with
`processed_lines = K` produces no batch whose `line_start ≤ K`, and
the first new batch starts at the first line after `K` whose trimmed
content is non-empty and not a `#` comment — which is `K+1` exactly
when line `K+1` is a domain line. -/
theorem feeder_resume (batchSize : Nat) (K : Int) (lines : List String) :
    (∀ b ∈ processFile batchSize K lines, K < b.lineStart) ∧
    (processFile batchSize K lines).head?.map FeederBatch.lineStart =
      firstFedLine K lines 0 := by
  constructor
  · exact feedGo_lineStart_gt batchSize K lines 0 [] 0 (Or.inl rfl)
  · exact feedGo_head_of_empty batchSize K lines 0 0

/-- Witness for C5 (amended): resume at `K = 1` over three domain
lines with batch size 2 produces a first batch starting at line 2. -/
theorem feeder_resume_witness :
    ((1 : Int) < 2) ∧
    (processFile 2 1 ["a", "b", "c"]).head?.map FeederBatch.lineStart =
      firstFedLine 1 ["a", "b", "c"] 0 :=
  ⟨(feeder_resume 2 1 ["a", "b", "c"]).1
      ⟨2, 3, ["b", "c"]⟩ (by decide),
   (feeder_resume 2 1 ["a", "b", "c"]).2⟩

/-! ## C9: the counter invariant -/

theorem le_foldr_max (x : Int) (l : List Int) (h : x ∈ l) :
    x ≤ l.foldr max 0 := by
  induction l with
  | nil => cases h
  | cons a t ih =>
    rcases List.mem_cons.mp h with rfl | ht
    · exact le_max_left _ _
    · exact le_trans (ih ht) (le_max_right _ _)

theorem countP_split {α : Type} (p q : α → Bool) (l : List α) :
    l.countP p = (l.countP fun x => p x && q x) +
      (l.countP fun x => p x && !q x) := by
  induction l with
  | nil => rfl
  | cons a t ih =>
    rw [List.countP_cons, List.countP_cons, List.countP_cons, ih]
    cases hp : p a <;> cases hq : q a <;> simp [hp, hq] <;> omega

theorem counterInv_of_eq {s s' : Store} (hf : s'.files = s.files)
    (hb : s'.batches = s.batches) (h : CounterInv s) : CounterInv s' := by
  intro f hmem
  rw [hf] at hmem
  obtain ⟨h1, h2⟩ := h f hmem
  refine ⟨h1, ?_⟩
  have hc : batchCountFor s' f.id = batchCountFor s f.id := by
    unfold batchCountFor
    rw [hb]
  rw [hc]
  exact h2

theorem batchFK_of_eq {s s' : Store} (hf : s'.files = s.files)
    (hb : s'.batches = s.batches) (h : BatchFK s) : BatchFK s' := by
  intro b hmem
  rw [hb] at hmem
  obtain ⟨f, hf', hid⟩ := h b hmem
  refine ⟨f, ?_, hid⟩
  rw [hf]
  exact hf'

theorem counterInv_map_files {s : Store} {u : DomainFile → DomainFile}
    (hu : ∀ f, (u f).id = f.id ∧ (u f).batchesCreated = f.batchesCreated ∧
      (u f).batchesCompleted = f.batchesCompleted)
    (h : CounterInv s) : CounterInv { s with files := s.files.map u } := by
  intro f hmem
  obtain ⟨g, hg, rfl⟩ := List.mem_map.mp hmem
  obtain ⟨hid, hc, hcc⟩ := hu g
  obtain ⟨h1, h2⟩ := h g hg
  rw [hc, hcc, hid]
  exact ⟨h1, h2⟩

theorem batchFK_map_files {s : Store} {u : DomainFile → DomainFile}
    (hu : ∀ f, (u f).id = f.id) (h : BatchFK s) :
    BatchFK { s with files := s.files.map u } := by
  intro b hb
  obtain ⟨f, hf, hfid⟩ := h b hb
  refine ⟨u f, List.mem_map_of_mem u hf, ?_⟩
  rw [hu f, hfid]

theorem counterInv_map_batches {s : Store} {v : ScanBatch → ScanBatch}
    (hv : ∀ b, (v b).fileId = b.fileId) (h : CounterInv s) :
    CounterInv { s with batches := s.batches.map v } := by
  intro f hmem
  obtain ⟨h1, h2⟩ := h f hmem
  refine ⟨h1, ?_⟩
  have hcnt : batchCountFor { s with batches := s.batches.map v } f.id =
      batchCountFor s f.id := by
    unfold batchCountFor
    show (s.batches.map v).countP _ = _
    rw [List.countP_map]
    congr 1
    funext b
    show ((v b).fileId == f.id) = (b.fileId == f.id)
    rw [hv b]
  rw [hcnt]
  exact h2

theorem batchFK_map_batches {s : Store} {v : ScanBatch → ScanBatch}
    (hv : ∀ b, (v b).fileId = b.fileId) (h : BatchFK s) :
    BatchFK { s with batches := s.batches.map v } := by
  intro b hb
  obtain ⟨b0, hb0, rfl⟩ := List.mem_map.mp hb
  obtain ⟨f, hf, hfid⟩ := h b0 hb0
  refine ⟨f, hf, ?_⟩
  rw [hfid, hv b0]

theorem storeInv_upsertFile (s : Store) (fn url : String) (sz : Int)
    (h : CounterInv s ∧ BatchFK s) :
    CounterInv (UpsertDomainFile s fn url sz) ∧
    BatchFK (UpsertDomainFile s fn url sz) := by
  obtain ⟨hc, hk⟩ := h
  unfold UpsertDomainFile
  by_cases hex : s.files.any (fun f => f.filename == fn) = true
  · rw [if_pos hex]
    constructor
    · refine counterInv_map_files ?_ hc
      intro f
      dsimp only
      split <;> exact ⟨rfl, rfl, rfl⟩
    · refine batchFK_map_files ?_ hk
      intro f
      dsimp only
      split <;> rfl
  · rw [if_neg hex]
    constructor
    · intro f hmem
      rcases List.mem_append.mp hmem with hold | hnew
      · exact hc f hold
      · rcases List.mem_singleton.mp hnew with rfl
        have hzero : (s.batches.countP fun b => b.fileId == nextFileId s) = 0 := by
          refine List.countP_eq_zero.mpr fun b hb => ?_
          obtain ⟨f, hfmem, hfid⟩ := hk b hb
          have hlt : f.id < nextFileId s := by
            unfold nextFileId
            have := le_foldr_max f.id (s.files.map (·.id))
              (List.mem_map_of_mem (·.id) hfmem)
            omega
          intro hbeq
          rw [beq_iff_eq] at hbeq
          rw [hfid, hbeq] at hlt
          omega
        show (0 : Int) ≤ 0 ∧ (0 : Int) +
          ((s.batches.countP fun b => b.fileId == nextFileId s : Nat) : Int) ≤ 0
        rw [hzero]
        simp
    · intro b hb
      obtain ⟨f, hfmem, hfid⟩ := hk b hb
      exact ⟨f, List.mem_append_left _ hfmem, hfid⟩

theorem storeInv_createBatch (s : Store) (fid ls le : Int) (d : String)
    (h : CounterInv s ∧ BatchFK s) :
    CounterInv (CreateBatchAndUpdateProgress s fid ls le d) ∧
    BatchFK (CreateBatchAndUpdateProgress s fid ls le d) := by
  obtain ⟨hc, hk⟩ := h
  unfold CreateBatchAndUpdateProgress
  by_cases hex : s.files.any (fun f => f.id == fid) = true
  · rw [if_pos hex]
    have hcnt : ∀ z : Int, batchCountFor
        { s with
          batches := s.batches ++
            [{ id := nextBatchId s, fileId := fid, lineStart := ls,
               lineEnd := le, domains := d, status := "pending",
               assignedAt := none, scannerId := none, sessionId := none }],
          files := s.files.map fun f =>
            if f.id == fid then
              { f with processedLines := le,
                       batchesCreated := f.batchesCreated + 1 }
            else f } z =
        batchCountFor s z + (if fid = z then 1 else 0) := by
      intro z
      unfold batchCountFor
      dsimp only
      rw [List.countP_append, List.countP_cons, List.countP_nil]
      dsimp only
      by_cases hz : fid = z
      · rw [if_pos (beq_iff_eq.mpr hz), if_pos hz]
      · rw [if_neg (fun hb => hz (beq_iff_eq.mp hb)), if_neg hz]
    constructor
    · intro f hmem
      obtain ⟨g, hg, rfl⟩ := List.mem_map.mp hmem
      obtain ⟨h1, h2⟩ := hc g hg
      by_cases hgid : (g.id == fid) = true
      · have hge : g.id = fid := beq_iff_eq.mp hgid
        rw [if_pos hgid, hcnt]
        dsimp only
        rw [if_pos hge.symm]
        constructor
        · omega
        · push_cast
          omega
      · have hgne : g.id ≠ fid := fun hgg => hgid (beq_iff_eq.mpr hgg)
        rw [if_neg hgid, hcnt]
        rw [if_neg (fun hz => hgne hz.symm)]
        constructor
        · exact h1
        · push_cast
          omega
    · intro b hb
      rcases List.mem_append.mp hb with hold | hnew
      · obtain ⟨f, hfmem, hfid⟩ := hk b hold
        refine ⟨_, List.mem_map_of_mem _ hfmem, ?_⟩
        dsimp only
        split <;> exact hfid
      · rcases List.mem_singleton.mp hnew with rfl
        obtain ⟨g, hg, hgid⟩ := List.any_eq_true.mp hex
        refine ⟨_, List.mem_map_of_mem _ hg, ?_⟩
        dsimp only
        split <;> exact beq_iff_eq.mp hgid
  · rw [if_neg hex]
    exact ⟨hc, hk⟩

theorem storeInv_claimBatch (s : Store) (cid sid : String) (now : Int)
    (h : CounterInv s ∧ BatchFK s) :
    CounterInv (ClaimBatch s cid sid now).2 ∧
    BatchFK (ClaimBatch s cid sid now).2 := by
  obtain ⟨hc, hk⟩ := h
  cases hpick : lowestPendingBatch s with
  | none =>
    have hred : (ClaimBatch s cid sid now).2 = s := by
      unfold ClaimBatch
      rw [hpick]
    rw [hred]
    exact ⟨hc, hk⟩
  | some b =>
    have hred : (ClaimBatch s cid sid now).2 =
        { s with batches := s.batches.map fun x =>
            if x.id == b.id then
              { x with status := "in_flight", assignedAt := some now,
                       scannerId := some cid, sessionId := some sid }
            else x } := by
      unfold ClaimBatch
      rw [hpick]
    rw [hred]
    constructor
    · refine counterInv_map_batches ?_ hc
      intro x
      dsimp only
      split <;> rfl
    · refine batchFK_map_batches ?_ hk
      intro x
      dsimp only
      split <;> rfl

theorem counterInv_completeBatch (s : Store) (bid : Int) (r : Int × Option Int)
    (s' : Store) (hcb : CompleteBatch s bid = some (r, s'))
    (hc : CounterInv s) : CounterInv s' := by
  unfold CompleteBatch at hcb
  cases hfind : s.batches.find? (fun x => x.id == bid) with
  | none =>
    rw [hfind] at hcb
    cases hcb
  | some b =>
    rw [hfind] at hcb
    have hs' : s' = { s with
        batches := s.batches.filter fun x => !(x.id == bid),
        files := s.files.map (bumpCompleted b.fileId) } :=
      (congrArg Prod.snd (Option.some.inj hcb)).symm
    rw [hs']
    have hbmem : b ∈ s.batches := List.mem_of_find?_eq_some hfind
    have hbid : (b.id == bid) = true := by simpa using List.find?_some hfind
    intro f hmem
    obtain ⟨g, hg, rfl⟩ := List.mem_map.mp hmem
    obtain ⟨h1, h2⟩ := hc g hg
    have hsplit := countP_split (fun x => x.fileId == g.id)
      (fun x => !(x.id == bid)) s.batches
    have hfil : ((s.batches.filter fun x => !(x.id == bid)).countP
        fun x => x.fileId == g.id) =
        s.batches.countP fun x => (x.fileId == g.id) && !(x.id == bid) := by
      rw [List.countP_filter]
    have hcnt : (s.batches.countP fun x => x.fileId == g.id) =
        batchCountFor s g.id := rfl
    by_cases hgid : (g.id == b.fileId) = true
    · have hge : g.id = b.fileId := beq_iff_eq.mp hgid
      have hbump : bumpCompleted b.fileId g =
          { g with batchesCompleted := g.batchesCompleted + 1 } := by
        unfold bumpCompleted
        rw [if_pos hgid]
      rw [hbump]
      have hpos : 0 < s.batches.countP
          fun x => (x.fileId == g.id) && !(!(x.id == bid)) := by
        refine List.countP_pos_iff.mpr ⟨b, hbmem, ?_⟩
        rw [show (b.fileId == g.id) = true from beq_iff_eq.mpr hge.symm, hbid]
        rfl
      constructor
      · show g.batchesCompleted + 1 ≤ g.batchesCreated
        rw [← hcnt] at h2
        omega
      · show g.batchesCompleted + 1 +
          (((s.batches.filter fun x => !(x.id == bid)).countP
            fun x => x.fileId == g.id : Nat) : Int) ≤ g.batchesCreated
        rw [hfil]
        rw [← hcnt] at h2
        omega
    · have hbump : bumpCompleted b.fileId g = g := by
        unfold bumpCompleted
        rw [if_neg]
        exact fun hco => hgid hco
      rw [hbump]
      refine ⟨h1, ?_⟩
      show g.batchesCompleted +
        (((s.batches.filter fun x => !(x.id == bid)).countP
          fun x => x.fileId == g.id : Nat) : Int) ≤ g.batchesCreated
      have hle : ((s.batches.filter fun x => !(x.id == bid)).countP
          fun x => x.fileId == g.id) ≤
          s.batches.countP fun x => x.fileId == g.id :=
        (List.filter_sublist s.batches).countP_le _
      rw [← hcnt] at h2
      omega

theorem batchFK_completeBatch (s : Store) (bid : Int) (r : Int × Option Int)
    (s' : Store) (hcb : CompleteBatch s bid = some (r, s'))
    (hk : BatchFK s) : BatchFK s' := by
  unfold CompleteBatch at hcb
  cases hfind : s.batches.find? (fun x => x.id == bid) with
  | none =>
    rw [hfind] at hcb
    cases hcb
  | some b =>
    rw [hfind] at hcb
    have hs' : s' = { s with
        batches := s.batches.filter fun x => !(x.id == bid),
        files := s.files.map (bumpCompleted b.fileId) } :=
      (congrArg Prod.snd (Option.some.inj hcb)).symm
    rw [hs']
    intro x hx
    have hxs : x ∈ s.batches := List.mem_of_mem_filter hx
    obtain ⟨f, hfmem, hfid⟩ := hk x hxs
    refine ⟨bumpCompleted b.fileId f, List.mem_map_of_mem _ hfmem, ?_⟩
    have : (bumpCompleted b.fileId f).id = f.id := by
      unfold bumpCompleted
      split <;> rfl
    rw [this, hfid]

theorem storeInv_nextFile (s : Store) (now : Int)
    (h : CounterInv s ∧ BatchFK s) :
    CounterInv (GetNextFileToProcess s now).2 ∧
    BatchFK (GetNextFileToProcess s now).2 := by
  obtain ⟨hc, hk⟩ := h
  cases hpick : pickNextFile s.files with
  | none =>
    have hred : (GetNextFileToProcess s now).2 = s := by
      unfold GetNextFileToProcess
      rw [hpick]
    rw [hred]
    exact ⟨hc, hk⟩
  | some f =>
    have hred : GetNextFileToProcess s now =
        if (f.status == "pending") = true then
          (some { f with status := "processing" },
           { s with files := s.files.map fun x =>
               if x.id == f.id then
                 { x with status := "processing", startedAt := some now }
               else x })
        else (some f, s) := by
      unfold GetNextFileToProcess
      rw [hpick]
    by_cases hp : (f.status == "pending") = true
    · rw [hred, if_pos hp]
      constructor
      · refine counterInv_map_files ?_ hc
        intro g
        dsimp only
        split <;> exact ⟨rfl, rfl, rfl⟩
      · refine batchFK_map_files ?_ hk
        intro g
        dsimp only
        split <;> rfl
    · rw [hred, if_neg hp]
      exact ⟨hc, hk⟩

theorem storeInv_markFeeding (s : Store) (fid : Int)
    (h : CounterInv s ∧ BatchFK s) :
    CounterInv (MarkFeedingComplete s fid) ∧
    BatchFK (MarkFeedingComplete s fid) := by
  obtain ⟨hc, hk⟩ := h
  unfold MarkFeedingComplete
  constructor
  · refine counterInv_map_files ?_ hc
    intro g
    dsimp only
    split <;> exact ⟨rfl, rfl, rfl⟩
  · refine batchFK_map_files ?_ hk
    intro g
    dsimp only
    split <;> rfl

theorem storeInv_closeFile (s : Store) (fid now : Int)
    (h : CounterInv s ∧ BatchFK s) :
    CounterInv (CheckAndMarkFileComplete s fid now).2 ∧
    BatchFK (CheckAndMarkFileComplete s fid now).2 := by
  obtain ⟨hc, hk⟩ := h
  constructor
  · refine counterInv_map_files ?_ hc
    intro g
    dsimp only
    split <;> exact ⟨rfl, rfl, rfl⟩
  · refine batchFK_map_files ?_ hk
    intro g
    dsimp only
    split <;> rfl

theorem storeInv_upsertSession (s : Store) (cid sid : String) (now : Int)
    (h : CounterInv s ∧ BatchFK s) :
    CounterInv (UpsertSession s cid sid now) ∧
    BatchFK (UpsertSession s cid sid now) := by
  obtain ⟨hc, hk⟩ := h
  unfold UpsertSession
  by_cases hex : s.sessions.any (fun t => t.id == sid) = true
  · rw [if_pos hex]
    exact ⟨counterInv_of_eq rfl rfl hc, batchFK_of_eq rfl rfl hk⟩
  · rw [if_neg hex]
    exact ⟨counterInv_of_eq rfl rfl hc, batchFK_of_eq rfl rfl hk⟩

theorem storeInv_upsertLoc (s : Store) (rd : String) (rec : ApiLOCRecord)
    (now : Int) (h : CounterInv s ∧ BatchFK s) :
    CounterInv (UpsertLOCRecord s rd rec now).2 ∧
    BatchFK (UpsertLOCRecord s rd rec now).2 := by
  obtain ⟨hc, hk⟩ := h
  exact ⟨counterInv_of_eq (UpsertLOCRecord_files s rd rec now)
      (UpsertLOCRecord_batches s rd rec now) hc,
    batchFK_of_eq (UpsertLOCRecord_files s rd rec now)
      (UpsertLOCRecord_batches s rd rec now) hk⟩

theorem storeInv_resetStale (s : Store) (now t : Int)
    (h : CounterInv s ∧ BatchFK s) :
    CounterInv (ResetStaleBatches s now t) ∧
    BatchFK (ResetStaleBatches s now t) := by
  obtain ⟨hc, hk⟩ := h
  unfold ResetStaleBatches
  constructor
  · refine counterInv_map_batches ?_ hc
    intro b
    dsimp only
    split <;> rfl
  · refine batchFK_map_batches ?_ hk
    intro b
    dsimp only
    split <;> rfl

theorem storeInv_resetDead (s : Store) (now ht : Int)
    (h : CounterInv s ∧ BatchFK s) :
    CounterInv (ResetBatchesFromDeadSessions s now ht) ∧
    BatchFK (ResetBatchesFromDeadSessions s now ht) := by
  obtain ⟨hc, hk⟩ := h
  unfold ResetBatchesFromDeadSessions
  constructor
  · refine counterInv_map_batches ?_ hc
    intro b
    dsimp only
    split <;> rfl
  · refine batchFK_map_batches ?_ hk
    intro b
    dsimp only
    split <;> rfl

/-- Every reachable store satisfies the counter invariant and the
batch foreign key. -/
theorem reachable_inv : ∀ s, Reachable s → CounterInv s ∧ BatchFK s := by
  intro s h
  induction h with
  | empty =>
    exact ⟨fun f hf => absurd hf (List.not_mem_nil f),
           fun b hb => absurd hb (List.not_mem_nil b)⟩
  | upsertFile s fn url sz _ ih => exact storeInv_upsertFile s fn url sz ih
  | upsertSession s cid sid now _ ih =>
    exact storeInv_upsertSession s cid sid now ih
  | upsertLoc s rd rec now _ ih => exact storeInv_upsertLoc s rd rec now ih
  | nextFile s now _ ih => exact storeInv_nextFile s now ih
  | createBatch s fid ls le d _ ih => exact storeInv_createBatch s fid ls le d ih
  | claimBatch s cid sid now _ ih => exact storeInv_claimBatch s cid sid now ih
  | completeBatch s bid r s' _ hcb ih =>
    exact ⟨counterInv_completeBatch s bid r s' hcb ih.1,
           batchFK_completeBatch s bid r s' hcb ih.2⟩
  | resetStale s now t _ ih => exact storeInv_resetStale s now t ih
  | resetDead s now ht _ ih => exact storeInv_resetDead s now ht ih
  | markFeeding s fid _ ih => exact storeInv_markFeeding s fid ih
  | closeFile s fid now _ ih => exact storeInv_closeFile s fid now ih

/-- C9: in every store state reachable through the pipeline's
operations, each file satisfies `batches_completed ≤ batches_created`
and `batches_created − batches_completed ≥` the number of remaining
batch rows of the file; moreover the invariant is preserved by batch
creation (`CreateBatchAndUpdateProgress`, which inserts the row and
increments `batches_created` in one transaction) and by batch
completion (`CompleteBatch`, which increments `batches_completed` only
while deleting an existing batch row). -/
theorem counterInv_spec :
    (∀ s, Reachable s → CounterInv s) ∧
    (∀ (s : Store) (fid ls le : Int) (d : String), CounterInv s ∧ BatchFK s →
      CounterInv (CreateBatchAndUpdateProgress s fid ls le d)) ∧
    (∀ (s : Store) (bid : Int) (r : Int × Option Int) (s' : Store),
      CompleteBatch s bid = some (r, s') → CounterInv s → CounterInv s') :=
  ⟨fun s h => (reachable_inv s h).1,
   fun s fid ls le d h => (storeInv_createBatch s fid ls le d h).1,
   counterInv_completeBatch⟩

/-- Witness for C9 on the store reached by discovering one file and
feeding one batch from it: `batches_completed = 0 ≤ 1 =
batches_created` and `0 + 1 ≤ 1` with one remaining batch row. -/
theorem counterInv_spec_witness :
    (0 : Int) ≤ 1 ∧ (0 : Int) +
      (batchCountFor
        (CreateBatchAndUpdateProgress
          (UpsertDomainFile
            { files := [], batches := [], sessions := [], locRecords := [] }
            "a" "u" 9) 1 1 4 "a.com") 1 : Int) ≤ 1 := by
  have h := (counterInv_spec.1 _
    (Reachable.createBatch _ 1 1 4 "a.com"
      (Reachable.upsertFile _ "a" "u" 9 Reachable.empty)))
    { id := 1, filename := "a", url := "u", sizeBytes := 9,
      processedLines := 4, batchesCreated := 1, batchesCompleted := 0,
      feedingComplete := false, status := "pending", startedAt := none,
      completedAt := none } (by decide)
  exact h

/-! ## Parser laws: decimal renderings -/

/-- Code point of a digit character. -/
theorem digitChar_toNat {d : Nat} (h : d < 10) : (digitChar d).toNat = 48 + d := by
  interval_cases d <;> rfl

/-- A digit character is in `\d`. -/
theorem isDigitCh_digitChar {d : Nat} (h : d < 10) : isDigitCh (digitChar d) = true := by
  interval_cases d <;> decide

/-- `natCharsAux` produces only digits. -/
theorem mem_natCharsAux_digit :
    ∀ (fuel n : Nat), ∀ c ∈ natCharsAux fuel n, isDigitCh c = true := by
  intro fuel
  induction fuel with
  | zero =>
    intro n c hc
    simp [natCharsAux] at hc
  | succ fuel ih =>
    intro n c hc
    rw [natCharsAux] at hc
    by_cases hn : n = 0
    · rw [if_pos hn] at hc
      simp at hc
    · rw [if_neg hn] at hc
      rcases List.mem_append.mp hc with h | h
      · exact ih _ c h
      · rw [List.mem_singleton.mp h]
        exact isDigitCh_digitChar (Nat.mod_lt _ (by norm_num))

/-- `natChars` produces only digits. -/
theorem mem_natChars_digit (n : Nat) : ∀ c ∈ natChars n, isDigitCh c = true := by
  intro c hc
  rw [natChars] at hc
  by_cases hn : n = 0
  · rw [if_pos hn] at hc
    rw [List.mem_singleton.mp hc]
    decide
  · rw [if_neg hn] at hc
    exact mem_natCharsAux_digit n n c hc

/-- `natChars` is never empty. -/
theorem natChars_ne_nil (n : Nat) : natChars n ≠ [] := by
  rw [natChars]
  by_cases hn : n = 0
  · rw [if_pos hn]
    simp
  · rw [if_neg hn]
    obtain ⟨m, rfl⟩ : ∃ m, n = m + 1 := ⟨n - 1, by omega⟩
    rw [natCharsAux, if_neg hn]
    simp

/-- The head of `natChars` is a digit. -/
theorem natChars_head_digit (n : Nat) :
    ∃ c, (natChars n).head? = some c ∧ isDigitCh c = true := by
  cases hl : natChars n with
  | nil => exact absurd hl (natChars_ne_nil n)
  | cons a t =>
    refine ⟨a, rfl, mem_natChars_digit n a ?_⟩
    rw [hl]
    exact List.mem_cons_self a t

/-- Rendering zero consumes no fuel. -/
theorem natCharsAux_zero (fuel : Nat) : natCharsAux fuel 0 = [] := by
  cases fuel <;> rfl

/-- Folding the decimal-value step over `natCharsAux` reads the number
back positionally. -/
theorem foldl_natCharsAux :
    ∀ (fuel n a : Nat), n ≤ fuel →
      (natCharsAux fuel n).foldl (fun a c => 10 * a + (c.toNat - 48)) a =
        if n = 0 then a else a * 10 ^ (natCharsAux fuel n).length + n := by
  intro fuel
  induction fuel with
  | zero =>
    intro n a h
    have hn : n = 0 := by omega
    subst hn
    rfl
  | succ fuel ih =>
    intro n a h
    by_cases hn : n = 0
    · subst hn
      rfl
    · rw [natCharsAux, if_neg hn, if_neg hn, List.foldl_append]
      have hdiv : n / 10 ≤ fuel := by
        have h1 : n / 10 < n := Nat.div_lt_self (by omega) (by norm_num)
        omega
      rw [ih (n / 10) a hdiv]
      by_cases h0 : n / 10 = 0
      · rw [if_pos h0, h0, natCharsAux_zero]
        simp only [List.foldl_cons, List.foldl_nil, List.nil_append,
          List.length_cons, List.length_nil]
        rw [digitChar_toNat (Nat.mod_lt _ (by norm_num))]
        simp only [Nat.zero_add, pow_one]
        omega
      · rw [if_neg h0]
        simp only [List.foldl_cons, List.foldl_nil]
        rw [digitChar_toNat (Nat.mod_lt _ (by norm_num))]
        rw [List.length_append, List.length_singleton, pow_succ, ← mul_assoc]
        set X := a * 10 ^ (natCharsAux fuel (n / 10)).length
        omega

/-- `digitsVal` inverts `natChars`. -/
theorem digitsVal_natChars (n : Nat) : digitsVal (natChars n) = n := by
  rw [natChars]
  by_cases hn : n = 0
  · rw [if_pos hn, hn]
    rfl
  · rw [if_neg hn, digitsVal, foldl_natCharsAux n n 0 (Nat.le_refl n), if_neg hn]
    simp

/-- `pad3` produces only digits. -/
theorem mem_pad3_digit {n : Nat} (hn : n ≤ 999) : ∀ c ∈ pad3 n, isDigitCh c = true := by
  intro c hc
  rw [pad3] at hc
  simp only [List.mem_cons, List.not_mem_nil, or_false] at hc
  rcases hc with rfl | rfl | rfl
  · exact isDigitCh_digitChar (by omega)
  · exact isDigitCh_digitChar (Nat.mod_lt _ (by norm_num))
  · exact isDigitCh_digitChar (Nat.mod_lt _ (by norm_num))

/-- `digitsVal` inverts `pad3` below 1000. -/
theorem digitsVal_pad3 {n : Nat} (hn : n ≤ 999) : digitsVal (pad3 n) = n := by
  rw [pad3, digitsVal]
  simp only [List.foldl_cons, List.foldl_nil]
  rw [digitChar_toNat (by omega : n / 100 < 10),
    digitChar_toNat (Nat.mod_lt _ (by norm_num) : n / 10 % 10 < 10),
    digitChar_toNat (Nat.mod_lt _ (by norm_num) : n % 10 < 10)]
  omega

/-- Characters with distinct code points are `==`-distinct. -/
theorem beq_char_false (c x : Char) (hx : c.toNat ≠ x.toNat) : (c == x) = false :=
  beq_eq_false_iff_ne.mpr fun e => hx (congrArg Char.toNat e)

/-- A digit is not Go whitespace. -/
theorem digit_not_spaceGo {c : Char} (h : isDigitCh c = true) : isSpaceGo c = false := by
  simp only [isDigitCh, Bool.and_eq_true, decide_eq_true_eq] at h
  rw [isSpaceGo,
    beq_char_false c ' ' (by change c.toNat ≠ 32; omega),
    beq_char_false c '\t' (by change c.toNat ≠ 9; omega),
    beq_char_false c '\n' (by change c.toNat ≠ 10; omega),
    beq_char_false c '\x0b' (by change c.toNat ≠ 11; omega),
    beq_char_false c '\x0c' (by change c.toNat ≠ 12; omega),
    beq_char_false c '\r' (by change c.toNat ≠ 13; omega)]
  rfl

/-- A digit is not in `\s`. -/
theorem digit_not_spaceRe {c : Char} (h : isDigitCh c = true) : isSpaceRe c = false := by
  simp only [isDigitCh, Bool.and_eq_true, decide_eq_true_eq] at h
  rw [isSpaceRe,
    beq_char_false c ' ' (by change c.toNat ≠ 32; omega),
    beq_char_false c '\t' (by change c.toNat ≠ 9; omega),
    beq_char_false c '\n' (by change c.toNat ≠ 10; omega),
    beq_char_false c '\x0c' (by change c.toNat ≠ 12; omega),
    beq_char_false c '\r' (by change c.toNat ≠ 13; omega)]
  rfl

/-- A digit is not the minus sign. -/
theorem digit_not_dash {c : Char} (h : isDigitCh c = true) : isDashCh c = false := by
  simp only [isDigitCh, Bool.and_eq_true, decide_eq_true_eq] at h
  rw [isDashCh, beq_char_false c '-' (by change c.toNat ≠ 45; omega)]

/-- A digit is in `[\d.]`. -/
theorem digitDot_of_digit {c : Char} (h : isDigitCh c = true) : isDigitDot c = true := by
  rw [isDigitDot, h]
  rfl

/-- A hemisphere letter `N`/`S` is not in `\s`. -/
theorem NS_not_spaceRe {c : Char} (h : isNS c = true) : isSpaceRe c = false := by
  simp only [isNS, Bool.or_eq_true, beq_iff_eq] at h
  rcases h with rfl | rfl <;> decide

/-- A hemisphere letter `E`/`W` is not in `\s`. -/
theorem EW_not_spaceRe {c : Char} (h : isEW c = true) : isSpaceRe c = false := by
  simp only [isEW, Bool.or_eq_true, beq_iff_eq] at h
  rcases h with rfl | rfl <;> decide

/-- `natChars` ends in a non-whitespace character. -/
theorem natChars_snoc (n : Nat) :
    ∃ Y c, natChars n = Y ++ [c] ∧ isSpaceGo c = false := by
  have hne := natChars_ne_nil n
  refine ⟨(natChars n).dropLast, (natChars n).getLast hne,
    (List.dropLast_append_getLast hne).symm, ?_⟩
  exact digit_not_spaceGo (mem_natChars_digit n _ (List.getLast_mem hne))

/-! ## Parser laws: greedy alignment of the atom machine -/

/-- `takeWhile` over a class-clean prefix followed by a class-failing
head stops exactly at the prefix. -/
theorem takeWhile_append_all {cls : Char → Bool} {r : List Char}
    (hr : ∀ c, r.head? = some c → cls c = false) :
    ∀ p : List Char, (∀ c ∈ p, cls c = true) → (p ++ r).takeWhile cls = p := by
  intro p
  induction p with
  | nil =>
    intro _
    rw [List.nil_append]
    cases r with
    | nil => rfl
    | cons a t => exact List.takeWhile_cons_of_neg (by simp [hr a rfl])
  | cons a t ih =>
    intro hp
    rw [List.cons_append,
      List.takeWhile_cons_of_pos (hp a (List.mem_cons_self a t)),
      ih fun c hc => hp c (List.mem_cons_of_mem a hc)]

/-- The greedy run over a clean prefix with a failing boundary is the
prefix length. -/
theorem greedyRun_append {cls : Char → Bool} {p r : List Char}
    (hp : ∀ c ∈ p, cls c = true) (hr : ∀ c, r.head? = some c → cls c = false) :
    greedyRun cls (p ++ r) = p.length := by
  rw [greedyRun, takeWhile_append_all hr p hp]

/-- Head-failure for a literal first character. -/
theorem headFail_cons {cls : Char → Bool} {x : Char} (h : cls x = false)
    (R : List Char) : ∀ c, (x :: R).head? = some c → cls c = false := by
  intro c hc
  rw [List.head?_cons] at hc
  rw [← Option.some.inj hc]
  exact h

/-- Head-failure when the suffix starts with a decimal rendering, for
any class that rejects digits. -/
theorem headFail_natChars {cls : Char → Bool}
    (h : ∀ c, isDigitCh c = true → cls c = false) (n : Nat) (R : List Char) :
    ∀ c, (natChars n ++ R).head? = some c → cls c = false := by
  intro c hc
  cases hl : natChars n with
  | nil => exact absurd hl (natChars_ne_nil n)
  | cons a t =>
    rw [hl, List.cons_append, List.head?_cons] at hc
    rw [← Option.some.inj hc]
    refine h a (mem_natChars_digit n a ?_)
    rw [hl]
    exact List.mem_cons_self a t

/-- Head-failure when the suffix starts with a seconds field. -/
theorem headFail_secL {cls : Char → Bool}
    (h : ∀ c, isDigitCh c = true → cls c = false) (w m : Nat) (R : List Char) :
    ∀ c, (secL w m ++ R).head? = some c → cls c = false := by
  intro c hc
  rw [secL, List.append_assoc] at hc
  exact headFail_natChars h w (('.' :: pad3 m) ++ R) c hc

/-- Head-failure across an optional single-character piece. -/
theorem headFail_if {cls : Char → Bool} {x : Char} (hx : cls x = false)
    (b : Bool) {R : List Char} (hR : ∀ c, R.head? = some c → cls c = false) :
    ∀ c, ((if b then [x] else []) ++ R).head? = some c → cls c = false := by
  cases b with
  | true =>
    intro c hc
    rw [if_pos rfl, List.singleton_append] at hc
    exact headFail_cons hx R c hc
  | false =>
    intro c hc
    rw [if_neg (by simp), List.nil_append] at hc
    exact hR c hc

/-- Head-failure for a bare optional single-character piece. -/
theorem headFail_ifSingle {cls : Char → Bool} {x : Char} (hx : cls x = false)
    (b : Bool) :
    ∀ c, ((if b then [x] else []) : List Char).head? = some c → cls c = false := by
  cases b with
  | true =>
    intro c hc
    rw [if_pos rfl] at hc
    exact headFail_cons hx [] c hc
  | false =>
    intro c hc
    rw [if_neg (by simp)] at hc
    exact Option.noConfusion hc

/-- One step of the anchored matcher: if the greedy run stops exactly
at the piece boundary and the piece length is the first consumption
count tried, the atom consumes the piece and the match continues on
the remainder. -/
theorem matchItems_step {a : Atom} {rest : List Atom} {p r : List Char}
    {caps : List (Nat × List Char)}
    (hgr : greedyRun a.cls (p ++ r) = p.length)
    (hhead : (countOptions a.q p.length).head? = some p.length)
    (hrec : matchItems rest r = some caps) :
    matchItems (a :: rest) (p ++ r) =
      some (match a.cap with
            | some i => (i, p) :: caps
            | none => caps) := by
  rw [matchItems, hgr]
  cases hl : countOptions a.q p.length with
  | nil =>
    rw [hl] at hhead
    exact Option.noConfusion hhead
  | cons n t =>
    rw [hl, List.head?_cons] at hhead
    have hn := Option.some.inj hhead
    subst hn
    simp only [List.findSome?_cons]
    rw [List.drop_left, hrec]
    simp only [Option.map_some']
    rw [List.take_left]

/-- Step instance for a `+`-quantified class atom. -/
theorem matchStep_plus {cls : Char → Bool} {cap : Option Nat} {rest : List Atom}
    {p r : List Char} {caps : List (Nat × List Char)}
    (hp : ∀ c ∈ p, cls c = true) (hne : p ≠ [])
    (hr : ∀ c, r.head? = some c → cls c = false)
    (hrec : matchItems rest r = some caps) :
    matchItems (⟨cls, Quant.plus, cap⟩ :: rest) (p ++ r) =
      some (match cap with
            | some i => (i, p) :: caps
            | none => caps) := by
  refine matchItems_step (greedyRun_append hp hr) ?_ hrec
  cases p with
  | nil => exact absurd rfl hne
  | cons a t => rfl

/-- Step instance for a `*`-quantified class atom. -/
theorem matchStep_star {cls : Char → Bool} {cap : Option Nat} {rest : List Atom}
    {p r : List Char} {caps : List (Nat × List Char)}
    (hp : ∀ c ∈ p, cls c = true)
    (hr : ∀ c, r.head? = some c → cls c = false)
    (hrec : matchItems rest r = some caps) :
    matchItems (⟨cls, Quant.star, cap⟩ :: rest) (p ++ r) =
      some (match cap with
            | some i => (i, p) :: caps
            | none => caps) := by
  refine matchItems_step (greedyRun_append hp hr) ?_ hrec
  cases p with
  | nil => rfl
  | cons a t => rfl

/-- Step instance for a single-character atom. -/
theorem matchStep_one {cls : Char → Bool} {cap : Option Nat} {rest : List Atom}
    {x : Char} {r : List Char} {caps : List (Nat × List Char)}
    (hx : cls x = true)
    (hr : ∀ c, r.head? = some c → cls c = false)
    (hrec : matchItems rest r = some caps) :
    matchItems (⟨cls, Quant.one, cap⟩ :: rest) ([x] ++ r) =
      some (match cap with
            | some i => (i, [x]) :: caps
            | none => caps) := by
  refine matchItems_step (greedyRun_append ?_ hr) rfl hrec
  intro c hc
  rw [List.mem_singleton.mp hc]
  exact hx

/-- Step instance for a `?`-quantified atom over a piece of length at
most one. -/
theorem matchStep_opt {cls : Char → Bool} {cap : Option Nat} {rest : List Atom}
    {p r : List Char} {caps : List (Nat × List Char)}
    (hp : ∀ c ∈ p, cls c = true) (hlen : p.length ≤ 1)
    (hr : ∀ c, r.head? = some c → cls c = false)
    (hrec : matchItems rest r = some caps) :
    matchItems (⟨cls, Quant.opt, cap⟩ :: rest) (p ++ r) =
      some (match cap with
            | some i => (i, p) :: caps
            | none => caps) := by
  refine matchItems_step (greedyRun_append hp hr) ?_ hrec
  cases p with
  | nil => rfl
  | cons a t =>
    cases t with
    | nil => rfl
    | cons b u =>
      rw [List.length_cons, List.length_cons] at hlen
      omega

/-! ## Parser laws: float parsing of the canonical captures -/

/-- `takeWhile` keeps a class-clean list whole. -/
theorem takeWhile_all {cls : Char → Bool} {p : List Char}
    (hp : ∀ c ∈ p, cls c = true) : p.takeWhile cls = p := by
  have h : (p ++ ([] : List Char)).takeWhile cls = p :=
    takeWhile_append_all (fun c hc => Option.noConfusion hc) p hp
  rwa [List.append_nil] at h

/-- The magnitude parser on a pure digit string. -/
theorem parseMag_digits {l : List Char} (hne : l ≠ [])
    (hd : ∀ c ∈ l, isDigitCh c = true) :
    parseMag l = some (digitsVal l : Rat) := by
  rw [parseMag, takeWhile_all hd, List.drop_length]
  have hie : l.isEmpty = false := by
    cases l with
    | nil => exact absurd rfl hne
    | cons a t => rfl
  simp [hie]

/-- The magnitude parser on `W.FFF` built from `natChars` and `pad3`. -/
theorem parseMag_frac (w m : Nat) (hm : m ≤ 999) :
    parseMag (natChars w ++ ('.' :: pad3 m)) =
      some ((w : Rat) + (m : Rat) / 1000) := by
  have hip : (natChars w ++ ('.' :: pad3 m)).takeWhile isDigitCh = natChars w :=
    takeWhile_append_all (headFail_cons (by decide) (pad3 m)) (natChars w)
      (mem_natChars_digit w)
  rw [parseMag, hip, List.drop_left]
  have hdrop : ('.' :: pad3 m).drop 1 = pad3 m := rfl
  have hie1 : ('.' :: pad3 m).isEmpty = false := rfl
  have hh : (('.' :: pad3 m).head? == some '.') = true := rfl
  have hall : (pad3 m).all isDigitCh = true :=
    List.all_eq_true.mpr fun c hc => mem_pad3_digit hm c hc
  have hne2 : (natChars w).isEmpty = false := by
    cases hl : natChars w with
    | nil => exact absurd hl (natChars_ne_nil w)
    | cons a t => rfl
  rw [hdrop]
  simp [hie1, hh, hall, hne2, digitsVal_natChars, digitsVal_pad3 hm,
    show (pad3 m).length = 3 from rfl]
  norm_num

/-- `ParseFloat` on a pure digit string. -/
theorem parseFloatQ_of_digits {l : List Char} (hne : l ≠ [])
    (hd : ∀ c ∈ l, isDigitCh c = true) :
    parseFloatQ l = (digitsVal l : Rat) := by
  obtain ⟨c, t, rfl⟩ := List.exists_cons_of_ne_nil hne
  have hcd : isDigitCh c = true := hd c (List.mem_cons_self c t)
  simp only [isDigitCh, Bool.and_eq_true, decide_eq_true_eq] at hcd
  have h1 : ((c :: t).head? == some '-') = false := by
    rw [List.head?_cons]
    show (c == '-') = false
    exact beq_char_false c '-' (by change c.toNat ≠ 45; omega)
  have h2 : ((c :: t).head? == some '+') = false := by
    rw [List.head?_cons]
    show (c == '+') = false
    exact beq_char_false c '+' (by change c.toNat ≠ 43; omega)
  rw [parseFloatQ, h1, h2]
  simp only [Bool.or_false, Bool.false_eq_true, if_false]
  rw [parseMag_digits hne hd]

/-- `ParseFloat` of a decimal rendering. -/
theorem parseFloatQ_natChars (n : Nat) : parseFloatQ (natChars n) = (n : Rat) := by
  rw [parseFloatQ_of_digits (natChars_ne_nil n) (mem_natChars_digit n),
    digitsVal_natChars]

/-- `ParseFloat` of a canonical seconds field. -/
theorem parseFloatQ_secL (w m : Nat) (hm : m ≤ 999) :
    parseFloatQ (secL w m) = (w : Rat) + (m : Rat) / 1000 := by
  rw [secL]
  obtain ⟨c, hc, hcd⟩ := natChars_head_digit w
  have hhead : (natChars w ++ ('.' :: pad3 m)).head? = some c := by
    cases hl : natChars w with
    | nil => exact absurd hl (natChars_ne_nil w)
    | cons a t =>
      rw [hl] at hc
      rw [List.cons_append, List.head?_cons]
      exact hc
  simp only [isDigitCh, Bool.and_eq_true, decide_eq_true_eq] at hcd
  have h1 : ((natChars w ++ ('.' :: pad3 m)).head? == some '-') = false := by
    rw [hhead]
    show (c == '-') = false
    exact beq_char_false c '-' (by change c.toNat ≠ 45; omega)
  have h2 : ((natChars w ++ ('.' :: pad3 m)).head? == some '+') = false := by
    rw [hhead]
    show (c == '+') = false
    exact beq_char_false c '+' (by change c.toNat ≠ 43; omega)
  rw [parseFloatQ, h1, h2]
  simp only [Bool.or_false, Bool.false_eq_true, if_false]
  rw [parseMag_frac w m hm]

/-- `ParseFloat` of an optionally negated decimal rendering. -/
theorem parseFloatQ_signed (b : Bool) (n : Nat) :
    parseFloatQ ((if b then ['-'] else []) ++ natChars n) =
      if b then -(n : Rat) else (n : Rat) := by
  cases b with
  | false =>
    rw [if_neg (by simp), if_neg (by simp), List.nil_append]
    exact parseFloatQ_natChars n
  | true =>
    rw [if_pos rfl, if_pos rfl, List.singleton_append]
    have h1 : (('-' :: natChars n).head? == some '-') = true := rfl
    have h2 : ('-' :: natChars n).drop 1 = natChars n := rfl
    rw [parseFloatQ, h1]
    simp only [Bool.true_or, if_true]
    rw [h2, parseMag_digits (natChars_ne_nil n) (mem_natChars_digit n),
      digitsVal_natChars]

/-! ## Parser laws: trimming the canonical input -/

/-- `dropWhile` is the identity when the head fails the predicate. -/
theorem dropWhile_eq_self_of_head {p : Char → Bool} {l : List Char}
    (h : ∀ c, l.head? = some c → p c = false) : l.dropWhile p = l := by
  cases l with
  | nil => rfl
  | cons a t => exact List.dropWhile_cons_of_neg (by simp [h a rfl])

/-- `TrimSpace` is the identity on a text with non-space first and
last characters. -/
theorem trimSpaceL_eq_self {l : List Char}
    (hhead : ∀ c, l.head? = some c → isSpaceGo c = false)
    (hlast : ∃ Y c, l = Y ++ [c] ∧ isSpaceGo c = false) :
    trimSpaceL l = l := by
  obtain ⟨Y, c, rfl, hc⟩ := hlast
  rw [trimSpaceL, dropWhile_eq_self_of_head hhead, List.reverse_append,
    List.reverse_singleton, List.singleton_append,
    List.dropWhile_cons_of_neg (by simp [hc]), List.reverse_cons,
    List.reverse_reverse]

/-- A trailing non-space witness survives prefixing. -/
theorem snoc_absorb {X R : List Char}
    (h : ∃ Y c, R = Y ++ [c] ∧ isSpaceGo c = false) :
    ∃ Y c, X ++ R = Y ++ [c] ∧ isSpaceGo c = false := by
  obtain ⟨Y, c, rfl, hc⟩ := h
  exact ⟨X ++ Y, c, (List.append_assoc X Y [c]).symm, hc⟩

/-! ## Parser laws: the canonical strict match -/

/-- All characters of a singleton piece are in a class containing it. -/
theorem all_single {cls : Char → Bool} {x : Char} (hx : cls x = true) :
    ∀ c ∈ ([x] : List Char), cls c = true := by
  intro c hc
  rw [List.mem_singleton.mp hc]
  exact hx

/-- All characters of an optional singleton piece are in a class
containing it. -/
theorem all_if {cls : Char → Bool} {x : Char} (hx : cls x = true) (b : Bool) :
    ∀ c ∈ ((if b then [x] else []) : List Char), cls c = true := by
  cases b with
  | true =>
    rw [if_pos rfl]
    exact all_single hx
  | false =>
    rw [if_neg (by simp)]
    intro c hc
    simp at hc

/-- An optional singleton piece has length at most one. -/
theorem if_single_length_le (x : Char) (b : Bool) :
    ((if b then [x] else []) : List Char).length ≤ 1 := by
  cases b <;> simp

/-- A seconds field is never empty. -/
theorem secL_ne_nil (w m : Nat) : secL w m ≠ [] := by
  rw [secL]
  intro h
  exact natChars_ne_nil w (List.append_eq_nil.mp h).1

/-- A seconds field consists of `[\d.]` characters. -/
theorem mem_secL_digitDot {w m : Nat} (hm : m ≤ 999) :
    ∀ c ∈ secL w m, isDigitDot c = true := by
  intro c hc
  rw [secL] at hc
  rcases List.mem_append.mp hc with h | h
  · exact digitDot_of_digit (mem_natChars_digit w c h)
  · rcases List.mem_cons.mp h with rfl | h2
    · decide
    · exact digitDot_of_digit (mem_pad3_digit hm c h2)

/-- `==` against `"S"` of a one-character string tests its character. -/
theorem beq_mk_S (c : Char) : (String.mk [c] == "S") = (c == 'S') := by
  by_cases h : c = 'S'
  · subst h
    decide
  · have h1 : (String.mk [c] == "S") = false :=
      beq_eq_false_iff_ne.mpr fun e => h (by
        have hdata : [c] = ['S'] := congrArg String.data e
        exact ((List.cons.injEq c [] 'S' []).mp hdata).1)
    have h2 : (c == 'S') = false := beq_eq_false_iff_ne.mpr h
    rw [h1, h2]

/-- `==` against `"W"` of a one-character string tests its character. -/
theorem beq_mk_W (c : Char) : (String.mk [c] == "W") = (c == 'W') := by
  by_cases h : c = 'W'
  · subst h
    decide
  · have h1 : (String.mk [c] == "W") = false :=
      beq_eq_false_iff_ne.mpr fun e => h (by
        have hdata : [c] = ['W'] := congrArg String.data e
        exact ((List.cons.injEq c [] 'W' []).mp hdata).1)
    have h2 : (c == 'W') = false := beq_eq_false_iff_ne.mpr h
    rw [h1, h2]

/-- Capture 1 of the canonical capture list. -/
theorem mkCaps_cap1 {latDeg latMin latSecW latSecM : Nat} {latH : Char}
    {lonDeg lonMin lonSecW lonSecM : Nat} {lonH : Char}
    {altNeg : Bool} {altN sizeN hpN vpN : Nat} :
    getCap (mkCaps latDeg latMin latSecW latSecM latH lonDeg lonMin lonSecW
      lonSecM lonH altNeg altN sizeN hpN vpN) 1 = natChars latDeg := by
  simp [mkCaps, getCap]

/-- Capture 2 of the canonical capture list. -/
theorem mkCaps_cap2 {latDeg latMin latSecW latSecM : Nat} {latH : Char}
    {lonDeg lonMin lonSecW lonSecM : Nat} {lonH : Char}
    {altNeg : Bool} {altN sizeN hpN vpN : Nat} :
    getCap (mkCaps latDeg latMin latSecW latSecM latH lonDeg lonMin lonSecW
      lonSecM lonH altNeg altN sizeN hpN vpN) 2 = natChars latMin := by
  simp [mkCaps, getCap]

/-- Capture 3 of the canonical capture list. -/
theorem mkCaps_cap3 {latDeg latMin latSecW latSecM : Nat} {latH : Char}
    {lonDeg lonMin lonSecW lonSecM : Nat} {lonH : Char}
    {altNeg : Bool} {altN sizeN hpN vpN : Nat} :
    getCap (mkCaps latDeg latMin latSecW latSecM latH lonDeg lonMin lonSecW
      lonSecM lonH altNeg altN sizeN hpN vpN) 3 = secL latSecW latSecM := by
  simp [mkCaps, getCap]

/-- Capture 4 of the canonical capture list. -/
theorem mkCaps_cap4 {latDeg latMin latSecW latSecM : Nat} {latH : Char}
    {lonDeg lonMin lonSecW lonSecM : Nat} {lonH : Char}
    {altNeg : Bool} {altN sizeN hpN vpN : Nat} :
    getCap (mkCaps latDeg latMin latSecW latSecM latH lonDeg lonMin lonSecW
      lonSecM lonH altNeg altN sizeN hpN vpN) 4 = [latH] := by
  simp [mkCaps, getCap]

/-- Capture 5 of the canonical capture list. -/
theorem mkCaps_cap5 {latDeg latMin latSecW latSecM : Nat} {latH : Char}
    {lonDeg lonMin lonSecW lonSecM : Nat} {lonH : Char}
    {altNeg : Bool} {altN sizeN hpN vpN : Nat} :
    getCap (mkCaps latDeg latMin latSecW latSecM latH lonDeg lonMin lonSecW
      lonSecM lonH altNeg altN sizeN hpN vpN) 5 = natChars lonDeg := by
  simp [mkCaps, getCap]

/-- Capture 6 of the canonical capture list. -/
theorem mkCaps_cap6 {latDeg latMin latSecW latSecM : Nat} {latH : Char}
    {lonDeg lonMin lonSecW lonSecM : Nat} {lonH : Char}
    {altNeg : Bool} {altN sizeN hpN vpN : Nat} :
    getCap (mkCaps latDeg latMin latSecW latSecM latH lonDeg lonMin lonSecW
      lonSecM lonH altNeg altN sizeN hpN vpN) 6 = natChars lonMin := by
  simp [mkCaps, getCap]

/-- Capture 7 of the canonical capture list. -/
theorem mkCaps_cap7 {latDeg latMin latSecW latSecM : Nat} {latH : Char}
    {lonDeg lonMin lonSecW lonSecM : Nat} {lonH : Char}
    {altNeg : Bool} {altN sizeN hpN vpN : Nat} :
    getCap (mkCaps latDeg latMin latSecW latSecM latH lonDeg lonMin lonSecW
      lonSecM lonH altNeg altN sizeN hpN vpN) 7 = secL lonSecW lonSecM := by
  simp [mkCaps, getCap]

/-- Capture 8 of the canonical capture list. -/
theorem mkCaps_cap8 {latDeg latMin latSecW latSecM : Nat} {latH : Char}
    {lonDeg lonMin lonSecW lonSecM : Nat} {lonH : Char}
    {altNeg : Bool} {altN sizeN hpN vpN : Nat} :
    getCap (mkCaps latDeg latMin latSecW latSecM latH lonDeg lonMin lonSecW
      lonSecM lonH altNeg altN sizeN hpN vpN) 8 = [lonH] := by
  simp [mkCaps, getCap]

/-- Capture 9 of the canonical capture list: sign and digits. -/
theorem mkCaps_cap9 {latDeg latMin latSecW latSecM : Nat} {latH : Char}
    {lonDeg lonMin lonSecW lonSecM : Nat} {lonH : Char}
    {altNeg : Bool} {altN sizeN hpN vpN : Nat} :
    getCap (mkCaps latDeg latMin latSecW latSecM latH lonDeg lonMin lonSecW
      lonSecM lonH altNeg altN sizeN hpN vpN) 9 =
      (if altNeg then ['-'] else []) ++ natChars altN := by
  simp [mkCaps, getCap]

/-- Capture 10 of the canonical capture list. -/
theorem mkCaps_cap10 {latDeg latMin latSecW latSecM : Nat} {latH : Char}
    {lonDeg lonMin lonSecW lonSecM : Nat} {lonH : Char}
    {altNeg : Bool} {altN sizeN hpN vpN : Nat} :
    getCap (mkCaps latDeg latMin latSecW latSecM latH lonDeg lonMin lonSecW
      lonSecM lonH altNeg altN sizeN hpN vpN) 10 = natChars sizeN := by
  simp [mkCaps, getCap]

/-- Capture 11 of the canonical capture list. -/
theorem mkCaps_cap11 {latDeg latMin latSecW latSecM : Nat} {latH : Char}
    {lonDeg lonMin lonSecW lonSecM : Nat} {lonH : Char}
    {altNeg : Bool} {altN sizeN hpN vpN : Nat} :
    getCap (mkCaps latDeg latMin latSecW latSecM latH lonDeg lonMin lonSecW
      lonSecM lonH altNeg altN sizeN hpN vpN) 11 = natChars hpN := by
  simp [mkCaps, getCap]

/-- Capture 12 of the canonical capture list. -/
theorem mkCaps_cap12 {latDeg latMin latSecW latSecM : Nat} {latH : Char}
    {lonDeg lonMin lonSecW lonSecM : Nat} {lonH : Char}
    {altNeg : Bool} {altN sizeN hpN vpN : Nat} :
    getCap (mkCaps latDeg latMin latSecW latSecM latH lonDeg lonMin lonSecW
      lonSecM lonH altNeg altN sizeN hpN vpN) 12 = natChars vpN := by
  simp [mkCaps, getCap]

/-- `ParseLOCRecord` written through the captures of a successful
match. -/
theorem ParseLOCRecord_of_match (fqdn raw : String)
    {caps : List (Nat × List Char)}
    (h : matchItems locAtoms (trimSpaceL raw.toList) = some caps) :
    ParseLOCRecord fqdn raw = some
      { fqdn := fqdn,
        rawRecord := String.mk (trimSpaceL raw.toList),
        latitude := if String.mk (getCap caps 4) == "S"
          then -(parseFloatQ (getCap caps 1) + parseFloatQ (getCap caps 2) / 60 +
            parseFloatQ (getCap caps 3) / 3600)
          else parseFloatQ (getCap caps 1) + parseFloatQ (getCap caps 2) / 60 +
            parseFloatQ (getCap caps 3) / 3600,
        longitude := if String.mk (getCap caps 8) == "W"
          then -(parseFloatQ (getCap caps 5) + parseFloatQ (getCap caps 6) / 60 +
            parseFloatQ (getCap caps 7) / 3600)
          else parseFloatQ (getCap caps 5) + parseFloatQ (getCap caps 6) / 60 +
            parseFloatQ (getCap caps 7) / 3600,
        altitudeM := parseFloatQ (getCap caps 9),
        sizeM := parseFloatQ (getCap caps 10),
        horizPrecM := parseFloatQ (getCap caps 11),
        vertPrecM := parseFloatQ (getCap caps 12) } := by
  simp only [ParseLOCRecord]
  rw [h]

/-- Full strict parse of a canonical LOC text: the match succeeds and
every field of the record is the exact rational reading of the
rendered components. -/
theorem ParseLOCRecord_mkRaw (fqdn : String)
    (latDeg latMin latSecW latSecM : Nat) (latH : Char)
    (lonDeg lonMin lonSecW lonSecM : Nat) (lonH : Char)
    (altNeg : Bool) (altN sizeN : Nat) (sm : Bool) (hpN : Nat) (hm : Bool)
    (vpN : Nat) (vm : Bool)
    (hlatH : isNS latH = true) (hlonH : isEW lonH = true)
    (hlatM : latSecM ≤ 999) (hlonM : lonSecM ≤ 999) :
    ParseLOCRecord fqdn (mkRaw latDeg latMin latSecW latSecM latH lonDeg
        lonMin lonSecW lonSecM lonH altNeg altN sizeN sm hpN hm vpN vm) =
      some { fqdn := fqdn,
             rawRecord := mkRaw latDeg latMin latSecW latSecM latH lonDeg
               lonMin lonSecW lonSecM lonH altNeg altN sizeN sm hpN hm vpN vm,
             latitude := if latH == 'S'
               then -((latDeg : Rat) + (latMin : Rat) / 60 +
                 ((latSecW : Rat) + (latSecM : Rat) / 1000) / 3600)
               else (latDeg : Rat) + (latMin : Rat) / 60 +
                 ((latSecW : Rat) + (latSecM : Rat) / 1000) / 3600,
             longitude := if lonH == 'W'
               then -((lonDeg : Rat) + (lonMin : Rat) / 60 +
                 ((lonSecW : Rat) + (lonSecM : Rat) / 1000) / 3600)
               else (lonDeg : Rat) + (lonMin : Rat) / 60 +
                 ((lonSecW : Rat) + (lonSecM : Rat) / 1000) / 3600,
             altitudeM := if altNeg then -(altN : Rat) else (altN : Rat),
             sizeM := (sizeN : Rat),
             horizPrecM := (hpN : Rat),
             vertPrecM := (vpN : Rat) } := by
  have hmatch : matchItems locAtoms (mkRawL latDeg latMin latSecW latSecM latH
      lonDeg lonMin lonSecW lonSecM lonH altNeg altN sizeN sm hpN hm vpN vm) =
      some (mkCaps latDeg latMin latSecW latSecM latH lonDeg lonMin lonSecW
        lonSecM lonH altNeg altN sizeN hpN vpN) := by
    rw [locAtoms, mkRawL, mkCaps]
    refine matchStep_plus (mem_natChars_digit _) (natChars_ne_nil _)
      (headFail_cons (by decide) _) ?_
    refine matchStep_plus (all_single (by decide)) (by decide)
      (headFail_natChars (fun x h => digit_not_spaceRe h) _ _) ?_
    refine matchStep_plus (mem_natChars_digit _) (natChars_ne_nil _)
      (headFail_cons (by decide) _) ?_
    refine matchStep_plus (all_single (by decide)) (by decide)
      (headFail_secL (fun x h => digit_not_spaceRe h) _ _ _) ?_
    refine matchStep_plus (mem_secL_digitDot hlatM) (secL_ne_nil _ _)
      (headFail_cons (by decide) _) ?_
    refine matchStep_plus (all_single (by decide)) (by decide)
      (headFail_cons (NS_not_spaceRe hlatH) _) ?_
    refine matchStep_one hlatH (headFail_cons (by decide) _) ?_
    refine matchStep_plus (all_single (by decide)) (by decide)
      (headFail_natChars (fun x h => digit_not_spaceRe h) _ _) ?_
    refine matchStep_plus (mem_natChars_digit _) (natChars_ne_nil _)
      (headFail_cons (by decide) _) ?_
    refine matchStep_plus (all_single (by decide)) (by decide)
      (headFail_natChars (fun x h => digit_not_spaceRe h) _ _) ?_
    refine matchStep_plus (mem_natChars_digit _) (natChars_ne_nil _)
      (headFail_cons (by decide) _) ?_
    refine matchStep_plus (all_single (by decide)) (by decide)
      (headFail_secL (fun x h => digit_not_spaceRe h) _ _ _) ?_
    refine matchStep_plus (mem_secL_digitDot hlonM) (secL_ne_nil _ _)
      (headFail_cons (by decide) _) ?_
    refine matchStep_plus (all_single (by decide)) (by decide)
      (headFail_cons (EW_not_spaceRe hlonH) _) ?_
    refine matchStep_one hlonH (headFail_cons (by decide) _) ?_
    refine matchStep_plus (all_single (by decide)) (by decide)
      (headFail_if (by decide) altNeg
        (headFail_natChars (fun x h => digit_not_spaceRe h) _ _)) ?_
    refine matchStep_opt (all_if (by decide) altNeg)
      (if_single_length_le '-' altNeg)
      (headFail_natChars (fun x h => digit_not_dash h) _ _) ?_
    refine matchStep_plus
      (fun c hc => digitDot_of_digit (mem_natChars_digit _ c hc))
      (natChars_ne_nil _) (headFail_cons (by decide) _) ?_
    refine matchStep_one (by decide) (headFail_cons (by decide) _) ?_
    refine matchStep_star (all_single (by decide))
      (headFail_natChars (fun x h => digit_not_spaceRe h) _ _) ?_
    refine matchStep_plus
      (fun c hc => digitDot_of_digit (mem_natChars_digit _ c hc))
      (natChars_ne_nil _)
      (headFail_if (by decide) sm (headFail_cons (by decide) _)) ?_
    refine matchStep_opt (all_if (by decide) sm) (if_single_length_le 'm' sm)
      (headFail_cons (by decide) _) ?_
    refine matchStep_star (all_single (by decide))
      (headFail_natChars (fun x h => digit_not_spaceRe h) _ _) ?_
    refine matchStep_plus
      (fun c hc => digitDot_of_digit (mem_natChars_digit _ c hc))
      (natChars_ne_nil _)
      (headFail_if (by decide) hm (headFail_cons (by decide) _)) ?_
    refine matchStep_opt (all_if (by decide) hm) (if_single_length_le 'm' hm)
      (headFail_cons (by decide) _) ?_
    refine matchStep_star (all_single (by decide))
      (headFail_natChars (fun x h => digit_not_spaceRe h) _ _) ?_
    refine matchStep_plus
      (fun c hc => digitDot_of_digit (mem_natChars_digit _ c hc))
      (natChars_ne_nil _) (headFail_ifSingle (by decide) vm) ?_
    rw [← List.append_nil (if vm then (['m'] : List Char) else [])]
    exact matchStep_opt (all_if (by decide) vm) (if_single_length_le 'm' vm)
      (fun c hc => Option.noConfusion hc) rfl
  have htrim : trimSpaceL (mkRaw latDeg latMin latSecW latSecM latH lonDeg
      lonMin lonSecW lonSecM lonH altNeg altN sizeN sm hpN hm vpN vm).toList =
      mkRawL latDeg latMin latSecW latSecM latH lonDeg lonMin lonSecW lonSecM
        lonH altNeg altN sizeN sm hpN hm vpN vm := by
    have he : (mkRaw latDeg latMin latSecW latSecM latH lonDeg lonMin lonSecW
        lonSecM lonH altNeg altN sizeN sm hpN hm vpN vm).toList =
        mkRawL latDeg latMin latSecW latSecM latH lonDeg lonMin lonSecW
          lonSecM lonH altNeg altN sizeN sm hpN hm vpN vm := rfl
    rw [he]
    refine trimSpaceL_eq_self ?_ ?_
    · intro c hc
      rw [mkRawL] at hc
      exact headFail_natChars (fun x h => digit_not_spaceGo h) latDeg _ c hc
    · rw [mkRawL]
      cases vm with
      | true =>
        repeat refine snoc_absorb ?_
        exact ⟨[], 'm', rfl, by decide⟩
      | false =>
        rw [if_neg (show ¬(false = true) by simp), List.append_nil]
        repeat refine snoc_absorb ?_
        exact natChars_snoc vpN
  have h0 : matchItems locAtoms (trimSpaceL (mkRaw latDeg latMin latSecW
      latSecM latH lonDeg lonMin lonSecW lonSecM lonH altNeg altN sizeN sm
      hpN hm vpN vm).toList) =
      some (mkCaps latDeg latMin latSecW latSecM latH lonDeg lonMin lonSecW
        lonSecM lonH altNeg altN sizeN hpN vpN) := by
    rw [htrim]
    exact hmatch
  have hparse := ParseLOCRecord_of_match fqdn (mkRaw latDeg latMin latSecW
    latSecM latH lonDeg lonMin lonSecW lonSecM lonH altNeg altN sizeN sm hpN
    hm vpN vm) h0
  rw [hparse, mkCaps_cap1, mkCaps_cap2, mkCaps_cap3, mkCaps_cap4, mkCaps_cap5,
    mkCaps_cap6, mkCaps_cap7, mkCaps_cap8, mkCaps_cap9, mkCaps_cap10,
    mkCaps_cap11, mkCaps_cap12, beq_mk_S, beq_mk_W,
    parseFloatQ_natChars latDeg, parseFloatQ_natChars latMin,
    parseFloatQ_secL latSecW latSecM hlatM,
    parseFloatQ_natChars lonDeg, parseFloatQ_natChars lonMin,
    parseFloatQ_secL lonSecW lonSecM hlonM,
    parseFloatQ_signed altNeg altN,
    parseFloatQ_natChars sizeN, parseFloatQ_natChars hpN,
    parseFloatQ_natChars vpN, htrim]
  rfl

/-! ## C4: strict DMS conversion -/

/-- C4: for all `(deg, min, sec, hemi)` with legal ranges, the strict
parser produces `sign·(deg + min/60 + sec/3600)` — with `sec` the
rendered `S.sss` seconds — exactly, hence within 1 µ°, and the value
is negated exactly when the hemisphere is `S` (latitude) or `W`
(longitude). -/
theorem ParseLOCRecord_dms (fqdn : String)
    (latDeg latMin latSecW latSecM lonDeg lonMin lonSecW lonSecM : Nat)
    (latH lonH : Char)
    (hlatH : latH = 'N' ∨ latH = 'S') (hlonH : lonH = 'E' ∨ lonH = 'W')
    (hlatDeg : latDeg ≤ 90) (hlatMin : latMin ≤ 59) (hlatSecW : latSecW ≤ 59)
    (hlatSecM : latSecM ≤ 999) (hlonDeg : lonDeg ≤ 180) (hlonMin : lonMin ≤ 59)
    (hlonSecW : lonSecW ≤ 59) (hlonSecM : lonSecM ≤ 999) :
    (ParseLOCRecord fqdn (mkRaw latDeg latMin latSecW latSecM latH lonDeg
        lonMin lonSecW lonSecM lonH false 0 1 true 10000 true 10
        true)).isSome = true ∧
    ∀ rec ∈ ParseLOCRecord fqdn (mkRaw latDeg latMin latSecW latSecM latH
        lonDeg lonMin lonSecW lonSecM lonH false 0 1 true 10000 true 10 true),
      (rec.latitude = (if latH = 'S' then -1 else 1) *
          ((latDeg : Rat) + (latMin : Rat) / 60 +
            ((latSecW : Rat) + (latSecM : Rat) / 1000) / 3600) ∧
        |rec.latitude - (if latH = 'S' then -1 else 1) *
          ((latDeg : Rat) + (latMin : Rat) / 60 +
            ((latSecW : Rat) + (latSecM : Rat) / 1000) / 3600)| ≤
          1 / 1000000) ∧
      (rec.longitude = (if lonH = 'W' then -1 else 1) *
          ((lonDeg : Rat) + (lonMin : Rat) / 60 +
            ((lonSecW : Rat) + (lonSecM : Rat) / 1000) / 3600) ∧
        |rec.longitude - (if lonH = 'W' then -1 else 1) *
          ((lonDeg : Rat) + (lonMin : Rat) / 60 +
            ((lonSecW : Rat) + (lonSecM : Rat) / 1000) / 3600)| ≤
          1 / 1000000) := by
  have hNS : isNS latH = true := by rcases hlatH with rfl | rfl <;> decide
  have hEW : isEW lonH = true := by rcases hlonH with rfl | rfl <;> decide
  have hp := ParseLOCRecord_mkRaw fqdn latDeg latMin latSecW latSecM latH
    lonDeg lonMin lonSecW lonSecM lonH false 0 1 true 10000 true 10 true
    hNS hEW hlatSecM hlonSecM
  rw [hp]
  refine ⟨rfl, ?_⟩
  intro rec hrec
  rw [Option.mem_def] at hrec
  have hre := Option.some.inj hrec
  subst hre
  rcases hlatH with rfl | rfl <;> rcases hlonH with rfl | rfl <;>
    refine ⟨⟨by norm_num, by norm_num⟩, by norm_num, by norm_num⟩

/-- C4 witness: `52 22 23.000 N 4 53 32.000 E 0m 1m 10000m 10m` parses
to latitude `188543/3600 ≈ 52.37306` and longitude
`17612/3600 ≈ 4.89222`. -/
theorem ParseLOCRecord_dms_witness :
    (ParseLOCRecord "example.com" (mkRaw 52 22 23 0 'N' 4 53 32 0 'E' false 0
        1 true 10000 true 10 true)).map ApiLOCRecord.latitude =
      some (188543 / 3600 : Rat) ∧
    (ParseLOCRecord "example.com" (mkRaw 52 22 23 0 'N' 4 53 32 0 'E' false 0
        1 true 10000 true 10 true)).map ApiLOCRecord.longitude =
      some (17612 / 3600 : Rat) := by
  have h := ParseLOCRecord_dms "example.com" 52 22 23 0 4 53 32 0 'N' 'E'
    (Or.inl rfl) (Or.inl rfl) (by norm_num) (by norm_num) (by norm_num)
    (by norm_num) (by norm_num) (by norm_num) (by norm_num) (by norm_num)
  obtain ⟨h1, h2⟩ := h
  cases hp : ParseLOCRecord "example.com" (mkRaw 52 22 23 0 'N' 4 53 32 0 'E'
      false 0 1 true 10000 true 10 true) with
  | none =>
    rw [hp] at h1
    exact absurd h1 (by simp)
  | some rec =>
    have hmem : rec ∈ ParseLOCRecord "example.com" (mkRaw 52 22 23 0 'N' 4 53
        32 0 'E' false 0 1 true 10000 true 10 true) := by
      rw [Option.mem_def, hp]
    have h3 := h2 rec hmem
    refine ⟨?_, ?_⟩
    · rw [Option.map_some', h3.1.1, if_neg (show ¬('N' = 'S') by decide)]
      norm_num
    · rw [Option.map_some', h3.2.1, if_neg (show ¬('E' = 'W') by decide)]
      norm_num

/-! ## C7: the `m` unit suffixes -/

/-- C7 counterexample: the altitude's `m` suffix is not optional. The
strict parser accepts `-2m` but rejects the same record with bare
`-2`, and the lenient fallback then reads `1` (the first `m`-suffixed
number) as the altitude instead of `-2`. -/
theorem altitude_m_not_optional :
    (ParseLOCRecord "x" "52 22 23.000 N 4 53 32.000 E -2m 1m 10000m 10m").map
      ApiLOCRecord.altitudeM = some (-2 : Rat) ∧
    ParseLOCRecord "x" "52 22 23.000 N 4 53 32.000 E -2 1m 10000m 10m" =
      none ∧
    (ParseLOCRecordLenient "x"
        "52 22 23.000 N 4 53 32.000 E -2 1m 10000m 10m").map
      ApiLOCRecord.altitudeM = some (1 : Rat) := by
  refine ⟨by decide, by decide, by decide⟩

/-- C7 (amended): in the strict grammar the `m` suffix is optional on
the size, horizontal-precision and vertical-precision fields: with any
combination of those suffixes present or absent the parse succeeds and
yields the same numeric meter values. (The altitude's `m` is
mandatory.) -/
theorem mSuffix_optional_on_sizes (fqdn : String)
    (latDeg latMin latSecW latSecM : Nat) (latH : Char)
    (lonDeg lonMin lonSecW lonSecM : Nat) (lonH : Char)
    (altNeg : Bool) (altN sizeN hpN vpN : Nat) (sm hm vm : Bool)
    (hlatH : isNS latH = true) (hlonH : isEW lonH = true)
    (hlatM : latSecM ≤ 999) (hlonM : lonSecM ≤ 999) :
    (ParseLOCRecord fqdn (mkRaw latDeg latMin latSecW latSecM latH lonDeg
        lonMin lonSecW lonSecM lonH altNeg altN sizeN sm hpN hm vpN vm)).map
      ApiLOCRecord.sizeM = some (sizeN : Rat) ∧
    (ParseLOCRecord fqdn (mkRaw latDeg latMin latSecW latSecM latH lonDeg
        lonMin lonSecW lonSecM lonH altNeg altN sizeN sm hpN hm vpN vm)).map
      ApiLOCRecord.horizPrecM = some (hpN : Rat) ∧
    (ParseLOCRecord fqdn (mkRaw latDeg latMin latSecW latSecM latH lonDeg
        lonMin lonSecW lonSecM lonH altNeg altN sizeN sm hpN hm vpN vm)).map
      ApiLOCRecord.vertPrecM = some (vpN : Rat) ∧
    (ParseLOCRecord fqdn (mkRaw latDeg latMin latSecW latSecM latH lonDeg
        lonMin lonSecW lonSecM lonH altNeg altN sizeN sm hpN hm vpN vm)).map
      ApiLOCRecord.altitudeM =
      some (if altNeg then -(altN : Rat) else (altN : Rat)) := by
  rw [ParseLOCRecord_mkRaw fqdn latDeg latMin latSecW latSecM latH lonDeg
    lonMin lonSecW lonSecM lonH altNeg altN sizeN sm hpN hm vpN vm hlatH
    hlonH hlatM hlonM]
  refine ⟨rfl, rfl, rfl, rfl⟩

/-- C7 amended-theorem witness: `1 2 3.000 N 4 5 6.000 E 7m 8 9 10`
(no suffix on size, horizontal or vertical precision) yields size 8,
horizontal precision 9 and vertical precision 10. -/
theorem mSuffix_optional_on_sizes_witness :
    (ParseLOCRecord "x" (mkRaw 1 2 3 0 'N' 4 5 6 0 'E' false 7 8 false 9
        false 10 false)).map ApiLOCRecord.sizeM = some (8 : Rat) ∧
    (ParseLOCRecord "x" (mkRaw 1 2 3 0 'N' 4 5 6 0 'E' false 7 8 false 9
        false 10 false)).map ApiLOCRecord.horizPrecM = some (9 : Rat) ∧
    (ParseLOCRecord "x" (mkRaw 1 2 3 0 'N' 4 5 6 0 'E' false 7 8 false 9
        false 10 false)).map ApiLOCRecord.vertPrecM = some (10 : Rat) := by
  have h := mSuffix_optional_on_sizes "x" 1 2 3 0 'N' 4 5 6 0 'E' false 7 8 9
    10 false false false (by decide) (by decide) (by norm_num) (by norm_num)
  refine ⟨?_, ?_, ?_⟩
  · rw [h.1]
    norm_num
  · rw [h.2.1]
    norm_num
  · rw [h.2.2.1]
    norm_num

end Scanner
